import Mathlib

/-!
Verification development for the ospgrillage mesh-generation core
(`Mesh.py`: classes `Mesh`, `EdgeConstructionLine`, `SweepPath`).

Python floats are rational numbers, so coordinates are embedded as `ℚ`.
Real-valued library helpers whose outputs are irrational (cos/sin/arctan,
`get_slope`, `find_min_x_dist` from the repository's `static` module, which
is not part of the sources given) enter as explicit oracle parameters; all
control flow, counter bookkeeping and container manipulation follow
`Mesh.py` line by line.  Python dicts are embedded as insertion-ordered
association lists with `setdefault` semantics; operations that can raise in
Python (`KeyError`, `IndexError`, `list.index` failures, unbound names)
return `Option`/`Except`.
-/

namespace Grillage

/-! ### Python dict primitives -/

/-- First value bound to `k` in an insertion-ordered association list
(Python `d[k]` yielding `None`-like absence as `none`). -/
def dictFind? {K V : Type} [DecidableEq K] : List (K × V) → K → Option V
  | [], _ => none
  | (k', v) :: rest, k => if k' = k then some v else dictFind? rest k

/-- Python `d.setdefault(k, v)`: returns the existing binding if present,
otherwise inserts `(k, v)` at the end and returns `v`. -/
def dictSetdefault {K V : Type} [DecidableEq K] (d : List (K × V)) (k : K) (v : V) :
    V × List (K × V) :=
  match dictFind? d k with
  | some v0 => (v0, d)
  | none => (v, d ++ [(k, v)])

/-! ### Transform registry (`Mesh.__get_geo_transform_tag`, Mesh.py lines 699-708)

The source keys `transform_dict` by `repr(vxz)` where `vxz` is the rounded,
normalized, 90-degree-rotated in-plane direction vector of the element.
`repr` of Python float lists is injective, so equality of the string keys
coincides with equality of the rounded vectors; the key type is therefore
kept abstract here (any type with decidable equality). -/

structure TransformState (K : Type) where
  transform_dict : List (K × Nat)
  transform_counter : Nat
deriving DecidableEq

def initTransformState {K : Type} : TransformState K := ⟨[], 0⟩

/-- `Mesh.__get_geo_transform_tag` registry core:
`tag_value = transform_dict.setdefault(key, transform_counter + 1)` followed by
`if tag_value > transform_counter: transform_counter = tag_value`. -/
def get_geo_transform_tag {K : Type} [DecidableEq K] (s : TransformState K) (k : K) :
    Nat × TransformState K :=
  let p := dictSetdefault s.transform_dict k (s.transform_counter + 1)
  (p.1, ⟨p.2, if p.1 > s.transform_counter then p.1 else s.transform_counter⟩)

/-- The sequence of transform tags produced by a run of registry lookups. -/
def runTransformTags {K : Type} [DecidableEq K] (s : TransformState K) :
    List K → List Nat × TransformState K
  | [] => ([], s)
  | k :: ks =>
    let p := get_geo_transform_tag s k
    let q := runTransformTags p.2 ks
    (p.1 :: q.1, q.2)

/-- Index of the first occurrence of `k`. -/
def firstIdx? {K : Type} [DecidableEq K] : List K → K → Option Nat
  | [], _ => none
  | k' :: u, k => if k' = k then some 0 else (firstIdx? u k).map (· + 1)

/-- Distinct keys in order of first appearance, continuing from `acc`. -/
def firstSeenAux {K : Type} [DecidableEq K] : List K → List K → List K
  | acc, [] => acc
  | acc, k :: ks => firstSeenAux (if k ∈ acc then acc else acc ++ [k]) ks

/-- Distinct keys of `ks` in order of first appearance. -/
def firstSeen {K : Type} [DecidableEq K] (ks : List K) : List K := firstSeenAux [] ks

/-- The registry contents after the distinct keys `u` have been seen:
the n-th distinct key is bound to tag `n + 1`. -/
def canonDict {K : Type} : List K → Nat → List (K × Nat)
  | [], _ => []
  | k :: u, n => (k, n + 1) :: canonDict u (n + 1)

theorem canonDict_append {K : Type} (u : List K) (k : K) (n : Nat) :
    canonDict (u ++ [k]) n = canonDict u n ++ [(k, n + u.length + 1)] := by
  induction u generalizing n with
  | nil => simp [canonDict]
  | cons a u ih =>
    have harith : n + 1 + u.length + 1 = n + (a :: u).length + 1 := by
      simp only [List.length_cons]
      omega
    show (a, n + 1) :: canonDict (u ++ [k]) (n + 1) =
      ((a, n + 1) :: canonDict u (n + 1)) ++ [(k, n + (a :: u).length + 1)]
    rw [List.cons_append, ih (n + 1), harith]

theorem dictFind?_canonDict {K : Type} [DecidableEq K] (u : List K) (k : K) (n : Nat) :
    dictFind? (canonDict u n) k = (firstIdx? u k).map (fun i => i + n + 1) := by
  induction u generalizing n with
  | nil => simp [canonDict, dictFind?, firstIdx?]
  | cons a u ih =>
    by_cases h : a = k
    · simp [canonDict, dictFind?, firstIdx?, h]
    · simp only [canonDict, dictFind?, firstIdx?, h, if_false, ih, Option.map_map]
      congr 1
      funext i
      simp only [Function.comp_apply]
      omega

theorem firstIdx?_append_of_isSome {K : Type} [DecidableEq K] (u w : List K) (k : K)
    (h : (firstIdx? u k).isSome) : firstIdx? (u ++ w) k = firstIdx? u k := by
  induction u with
  | nil => simp [firstIdx?] at h
  | cons a u ih =>
    by_cases ha : a = k
    · simp [firstIdx?, ha]
    · rw [List.cons_append]
      simp only [firstIdx?, ha, if_false] at h ⊢
      have hmap : ∀ o : Option Nat, (Option.map (· + 1) o).isSome = o.isSome := by
        intro o
        cases o <;> rfl
      rw [hmap] at h
      rw [ih h]

theorem firstIdx?_isSome_iff_mem {K : Type} [DecidableEq K] (u : List K) (k : K) :
    (firstIdx? u k).isSome ↔ k ∈ u := by
  induction u with
  | nil => simp [firstIdx?]
  | cons a u ih =>
    by_cases ha : a = k
    · simp [firstIdx?, ha]
    · simp only [firstIdx?, ha, if_false, List.mem_cons]
      have hmap : (Option.map (· + 1) (firstIdx? u k)).isSome = (firstIdx? u k).isSome := by
        cases firstIdx? u k <;> rfl
      rw [hmap, ih]
      constructor
      · exact Or.inr
      · rintro (rfl | h)
        · exact absurd rfl ha
        · exact h

theorem firstIdx?_get {K : Type} [DecidableEq K] (u : List K) (k : K) (n : Nat)
    (h : firstIdx? u k = some n) : u[n]? = some k := by
  induction u generalizing n with
  | nil => simp [firstIdx?] at h
  | cons a u ih =>
    by_cases ha : a = k
    · simp [firstIdx?, ha] at h
      simp [← h, ha]
    · simp only [firstIdx?, ha, if_false, Option.map_eq_some'] at h
      obtain ⟨m, hm, rfl⟩ := h
      simpa using ih m hm

theorem firstIdx?_self_append {K : Type} [DecidableEq K] (u : List K) (k : K)
    (h : k ∉ u) : firstIdx? (u ++ [k]) k = some u.length := by
  induction u with
  | nil => simp [firstIdx?]
  | cons a u ih =>
    have ha : ¬a = k := fun hak => h (hak ▸ List.mem_cons_self a u)
    have h2 : k ∉ u := fun hk => h (List.mem_cons_of_mem a hk)
    rw [List.cons_append]
    simp only [firstIdx?, ha, if_false, ih h2, Option.map_some', List.length_cons]

theorem firstSeenAux_extends {K : Type} [DecidableEq K] (ks u : List K) :
    ∃ w, firstSeenAux u ks = u ++ w := by
  induction ks generalizing u with
  | nil => exact ⟨[], by simp [firstSeenAux]⟩
  | cons k ks ih =>
    simp only [firstSeenAux]
    by_cases h : k ∈ u
    · simpa [h] using ih u
    · simp only [h, if_false]
      obtain ⟨w, hw⟩ := ih (u ++ [k])
      exact ⟨[k] ++ w, by simpa using hw⟩

theorem mem_firstSeenAux {K : Type} [DecidableEq K] (ks u : List K) (k : K)
    (h : k ∈ ks ∨ k ∈ u) : k ∈ firstSeenAux u ks := by
  induction ks generalizing u with
  | nil => simpa [firstSeenAux] using h.resolve_left (by simp)
  | cons a ks ih =>
    simp only [firstSeenAux]
    by_cases ha : a ∈ u
    · rw [if_pos ha]
      apply ih
      rcases h with h | h
      · rcases List.mem_cons.mp h with rfl | h
        · exact Or.inr ha
        · exact Or.inl h
      · exact Or.inr h
    · rw [if_neg ha]
      apply ih
      rcases h with h | h
      · rcases List.mem_cons.mp h with rfl | h
        · exact Or.inr (by simp)
        · exact Or.inl h
      · exact Or.inr (by simp [h])

/-- Core correctness of the registry run: starting from the canonical state
for the already-seen distinct keys `u`, every produced tag is the
first-appearance index (continuing `u`) plus one. -/
theorem runTransformTags_canon {K : Type} [DecidableEq K] (ks u : List K) :
    (runTransformTags ⟨canonDict u 0, u.length⟩ ks).1 =
      ks.map (fun k => (firstIdx? (firstSeenAux u ks) k).getD 0 + 1) := by
  induction ks generalizing u with
  | nil => simp [runTransformTags, firstSeenAux]
  | cons k ks ih =>
    by_cases h : k ∈ u
    · have hsome : (firstIdx? u k).isSome := (firstIdx?_isSome_iff_mem u k).mpr h
      obtain ⟨i, hi⟩ := Option.isSome_iff_exists.mp hsome
      have hfind : dictFind? (canonDict u 0) k = some (i + 1) := by
        rw [dictFind?_canonDict, hi]
        rfl
      have hstep : get_geo_transform_tag ⟨canonDict u 0, u.length⟩ k =
          (i + 1, ⟨canonDict u 0, u.length⟩) := by
        have hle : i + 1 ≤ u.length := by
          have := firstIdx?_get u k i hi
          have hlt : i < u.length := by
            by_contra hge
            rw [List.getElem?_eq_none (by omega)] at this
            exact Option.noConfusion this
          omega
        simp only [get_geo_transform_tag, dictSetdefault, hfind]
        simp only [gt_iff_lt]
        rw [if_neg (by omega)]
      simp only [runTransformTags, hstep, ih, List.map_cons, firstSeenAux, h, if_true]
      have hpre : firstIdx? (firstSeenAux u ks) k = some i := by
        obtain ⟨w, hw⟩ := firstSeenAux_extends ks u
        rw [hw, firstIdx?_append_of_isSome u w k hsome, hi]
      rw [hpre]
      rfl
    · have hnone : firstIdx? u k = none := by
        cases hfi : firstIdx? u k with
        | none => rfl
        | some i =>
          exact absurd ((firstIdx?_isSome_iff_mem u k).mp (by simp [hfi])) h
      have hfind : dictFind? (canonDict u 0) k = none := by
        rw [dictFind?_canonDict, hnone]
        rfl
      have hstep : get_geo_transform_tag ⟨canonDict u 0, u.length⟩ k =
          (u.length + 1, ⟨canonDict u 0 ++ [(k, u.length + 1)], u.length + 1⟩) := by
        simp only [get_geo_transform_tag, dictSetdefault, hfind]
        simp only [gt_iff_lt]
        rw [if_pos (by omega)]
      have hcanon : canonDict u 0 ++ [(k, u.length + 1)] = canonDict (u ++ [k]) 0 := by
        rw [canonDict_append]
        simp
      have hlen : u.length + 1 = (u ++ [k]).length := by simp
      simp only [runTransformTags, hstep, List.map_cons, firstSeenAux, h, if_false]
      rw [hcanon, hlen, ih (u ++ [k])]
      have hself : firstIdx? (firstSeenAux (u ++ [k]) ks) k = some u.length := by
        obtain ⟨w, hw⟩ := firstSeenAux_extends ks (u ++ [k])
        have hsome2 : (firstIdx? (u ++ [k]) k).isSome :=
          (firstIdx?_isSome_iff_mem _ k).mpr (by simp)
        rw [hw]
        rw [firstIdx?_append_of_isSome (u ++ [k]) w k hsome2]
        exact firstIdx?_self_append u k h
      rw [hself]
      simp

theorem runTransformTags_from_init {K : Type} [DecidableEq K] (ks : List K) :
    (runTransformTags initTransformState ks).1 =
      ks.map (fun k => (firstIdx? (firstSeen ks) k).getD 0 + 1) :=
  runTransformTags_canon ks []

/-- C1: during mesh construction each transform lookup is keyed by the
rounded, normalized, 90-degree-rotated direction vector; two lookups get the
same `transform_tag` iff their rounded vectors (keys) are equal, and ids are
assigned monotonically: each newly seen key gets the next integer starting
from 1 (the tag equals one plus the key's index in first-appearance order). -/
theorem mem_of_getElem?_eq_some {α : Type} {l : List α} {n : Nat} {a : α}
    (h : l[n]? = some a) : a ∈ l := by
  induction l generalizing n with
  | nil => simp at h
  | cons b l ih =>
    cases n with
    | zero =>
      simp only [List.getElem?_cons_zero, Option.some_inj] at h
      exact h ▸ List.mem_cons_self b l
    | succ n =>
      simp only [List.getElem?_cons_succ] at h
      exact List.mem_cons_of_mem b (ih h)

theorem transform_tag_dedup_monotone {K : Type} [DecidableEq K] (ks : List K)
    (i j : Nat) (ki kj : K) (hi : ks[i]? = some ki) (hj : ks[j]? = some kj) :
    ((runTransformTags initTransformState ks).1[i]? =
        (runTransformTags initTransformState ks).1[j]? ↔ ki = kj)
    ∧ (runTransformTags initTransformState ks).1[i]? =
        some ((firstIdx? (firstSeen ks) ki).getD 0 + 1) := by
  have hmem_i : ki ∈ ks := mem_of_getElem?_eq_some hi
  have hmem_j : kj ∈ ks := mem_of_getElem?_eq_some hj
  have hfs_i : ki ∈ firstSeen ks := mem_firstSeenAux ks [] ki (Or.inl hmem_i)
  have hfs_j : kj ∈ firstSeen ks := mem_firstSeenAux ks [] kj (Or.inl hmem_j)
  obtain ⟨ni, hni⟩ := Option.isSome_iff_exists.mp
    ((firstIdx?_isSome_iff_mem (firstSeen ks) ki).mpr hfs_i)
  obtain ⟨nj, hnj⟩ := Option.isSome_iff_exists.mp
    ((firstIdx?_isSome_iff_mem (firstSeen ks) kj).mpr hfs_j)
  rw [runTransformTags_from_init]
  rw [List.getElem?_map, List.getElem?_map, hi, hj]
  simp only [Option.map_some']
  constructor
  · constructor
    · intro heq
      rw [hni, hnj] at heq
      simp only [Option.some_inj, Option.getD_some, Nat.add_right_cancel_iff] at heq
      have h1 := firstIdx?_get (firstSeen ks) ki ni hni
      have h2 := firstIdx?_get (firstSeen ks) kj nj hnj
      rw [heq, h2] at h1
      exact (Option.some_inj.mp h1).symm
    · intro heq
      rw [heq]
  · trivial

/-- Witness for C1: a concrete run with keys `[5, 7, 5]` (positions 0 and 2
share a key and get the same tag, namely 1). -/
theorem transform_tag_dedup_monotone_witness :
    (([5, 7, 5] : List ℕ)[0]? = some 5 ∧ ([5, 7, 5] : List ℕ)[2]? = some 5)
    ∧ (((runTransformTags initTransformState [5, 7, 5]).1[0]? =
          (runTransformTags initTransformState [5, 7, 5]).1[2]? ↔ (5 : ℕ) = 5)
        ∧ (runTransformTags initTransformState [5, 7, 5]).1[0]? =
          some ((firstIdx? (firstSeen [5, 7, 5]) 5).getD 0 + 1)) :=
  ⟨⟨by decide, by decide⟩,
    transform_tag_dedup_monotone [5, 7, 5] 0 2 5 5 (by decide) (by decide)⟩

/-! ### Mesh state (class `Mesh`, Mesh.py lines 18-127)

Coordinates are `ℚ` triples (Python floats are rationals).  The transform
key type `K` abstracts the string `repr` of the rounded direction vector
(`Mesh.__get_vector_xz` composed with rounding and `repr`): normalization
divides by an irrational square root, so the key extraction enters as the
oracle `vkey`; everything downstream of the key is exact. -/

abbrev Coord := ℚ × ℚ × ℚ

structure NodeRec where
  tag : Nat
  coordinate : Coord
  x_group : Nat
  z_group : Nat
deriving DecidableEq

/-- One entry of `long_ele` / `trans_ele` / `edge_span_ele`:
`[element_counter, node_i, node_j, group, transform_tag]`. -/
structure Element where
  e_tag : Nat
  node_i : Nat
  node_j : Nat
  group : Nat
  transform_tag : Nat
deriving DecidableEq

structure MeshState (K : Type) where
  node_counter : Nat
  element_counter : Nat
  transform : TransformState K
  global_x_grid_count : Nat
  global_edge_count : Nat
  node_spec : List (Nat × NodeRec)
  long_ele : List Element
  trans_ele : List Element
  edge_span_ele : List Element
  edge_node_recorder : List (Nat × Nat)
deriving DecidableEq

/-- Counters as initialized in `Mesh.__init__` (element_counter=1,
node_counter=1, transform_counter=0, global_x_grid_count=0,
global_edge_count=0, empty containers). -/
def initMeshState {K : Type} : MeshState K :=
  ⟨1, 1, initTransformState, 0, 0, [], [], [], [], []⟩

def nodeFind? {K : Type} (s : MeshState K) (n : Nat) : Option NodeRec :=
  dictFind? s.node_spec n

/-- The node-placement step used by every meshing loop:
`node_spec.setdefault(node_counter, {'tag': node_counter, 'coordinate': ...,
'x_group': ..., 'z_group': ...})` followed by `node_counter += 1`; returns
the tag appended to `assigned_node_tag` (the pre-increment counter). -/
def addNode {K : Type} (s : MeshState K) (coord : Coord) (xg zg : Nat) :
    Nat × MeshState K :=
  let p := dictSetdefault s.node_spec s.node_counter ⟨s.node_counter, coord, xg, zg⟩
  (s.node_counter,
    { s with node_spec := p.2, node_counter := s.node_counter + 1 })

/-- `Mesh.__get_geo_transform_tag` (lines 699-708): look up both node
coordinates in `node_spec` (`KeyError` if absent ⇒ `none`), derive the key
via the oracle `vkey`, and run the registry step. -/
def geo_transform_tag_of_nodes {K : Type} [DecidableEq K]
    (vkey : Coord → Coord → K) (s : MeshState K) (ni nj : Nat) :
    Option (Nat × MeshState K) := do
  let ri ← nodeFind? s ni
  let rj ← nodeFind? s nj
  let p := get_geo_transform_tag s.transform (vkey ri.coordinate rj.coordinate)
  some (p.1, { s with transform := p.2 })

/-- `Mesh.__assign_transverse_members` (lines 486-489). -/
def assign_transverse_members {K : Type} [DecidableEq K]
    (vkey : Coord → Coord → K) (s : MeshState K) (pre_node cur_node : Nat) :
    Option (MeshState K) := do
  let p ← geo_transform_tag_of_nodes vkey s pre_node cur_node
  let s := p.2
  some { s with
    trans_ele := s.trans_ele ++
      [⟨s.element_counter, pre_node, cur_node, s.global_x_grid_count, p.1⟩],
    element_counter := s.element_counter + 1 }

/-- `Mesh.__assign_longitudinal_members` (lines 491-494). -/
def assign_longitudinal_members {K : Type} [DecidableEq K]
    (vkey : Coord → Coord → K) (s : MeshState K) (pre_node cur_node cur_z_group : Nat) :
    Option (MeshState K) := do
  let p ← geo_transform_tag_of_nodes vkey s pre_node cur_node
  let s := p.2
  some { s with
    long_ele := s.long_ele ++
      [⟨s.element_counter, pre_node, cur_node, cur_z_group, p.1⟩],
    element_counter := s.element_counter + 1 }

/-- `Mesh.__assign_edge_trans_members` (lines 496-500). -/
def assign_edge_trans_members {K : Type} [DecidableEq K]
    (vkey : Coord → Coord → K) (s : MeshState K) (previous_node_tag assigned_node_tag edge_counter : Nat) :
    Option (MeshState K) := do
  let p ← geo_transform_tag_of_nodes vkey s previous_node_tag assigned_node_tag
  let s := p.2
  some { s with
    edge_span_ele := s.edge_span_ele ++
      [⟨s.element_counter, previous_node_tag, assigned_node_tag, edge_counter, p.1⟩],
    element_counter := s.element_counter + 1 }

/-- `edge_node_recorder.setdefault(node, global_edge_count)` over a list of
node tags (lines 156-157, 172-173 and the orthogonal analogues). -/
def record_edge_nodes {K : Type} (s : MeshState K) (tags : List Nat) : MeshState K :=
  { s with edge_node_recorder :=
      (tags.foldl (fun d n => (dictSetdefault d n s.global_edge_count).2)
        s.edge_node_recorder) }

/-! ### Numeric helpers -/

/-- numpy `linspace(a, b, n)`: `n` evenly spaced points from `a` to `b`
inclusive. -/
def linspace (a b : ℚ) (n : Nat) : List ℚ :=
  if n ≤ 1 then (List.range n).map (fun _ => a)
  else (List.range n).map (fun i : Nat => a + (b - a) * i / ((n : ℚ) - 1))

/-- numpy `round(q, decimals)` (ties are irrelevant to every claim; standard
rounding to the nearest multiple of `10^-decimals` is used). -/
def np_round (decimals : Nat) (q : ℚ) : ℚ :=
  (round (q * 10 ^ decimals) : ℤ) / 10 ^ decimals

/-- Modelled from the spec: `line_func` from the repository's `static`
module (not under src/) evaluates the straight sweep line, z = m·x + c. -/
def line_func (m c x : ℚ) : ℚ := m * x + c

/-- Modelled from the spec: `select_segment_function` from `static` (not
under src/) returns the profile elevation at `x`; for the straight-line
case (`curve_flag=False`, the only case reachable in
`__fixed_sweep_node_meshing`) it is `line_func m c x`. -/
def select_segment_function_line (m c x : ℚ) : ℚ := line_func m c x

/-- The `z_inc` computation of `__fixed_sweep_node_meshing` (lines
135-137): `np.round(select_segment_function(curve_flag, d, m=self.m,
c=self.m, x=x_inc, r=self.r), self.decimal_lim)` — note the source passes
`self.m` for the intercept argument `c`. -/
def fixed_sweep_zfun (m : ℚ) (x : ℚ) : ℚ :=
  np_round 3 (select_segment_function_line m m x)

/-! ### EdgeConstructionLine (Mesh.py lines 794-833) -/

structure EdgeConstructionLine where
  edge_ref_point : Coord
  width_z : ℚ
  edge_width_z : ℚ
  edge_angle : ℚ
  num_long_beam : Nat
  noz : List ℚ
  node_list : List Coord

/-- EdgeConstructionLine construction (lines 799-824): `noz` is
`[0] ++ linspace(edge_width_z, width_z - edge_width_z, num_long_beam - 2)
++ [width_z]`; each node is displaced by `-z·tan(edge_angle·π/180)`
longitudinally (both branches of the source's sign split are identical).
`tanv` is the oracle value of the irrational `tan(edge_angle·π/180)`. -/
def mkEdgeConstructionLine (edge_ref_point : Coord) (width_z edge_width_z : ℚ)
    (edge_angle : ℚ) (num_long_beam : Nat) (model_plane_y : ℚ) (tanv : ℚ) :
    EdgeConstructionLine :=
  let last_girder := width_z - edge_width_z
  let nox_girder := linspace edge_width_z last_girder (num_long_beam - 2)
  let noz := [0] ++ nox_girder ++ [width_z]
  let node_list := noz.map (fun z =>
    (-(z * tanv) + edge_ref_point.1, model_plane_y + edge_ref_point.2.1,
      z + edge_ref_point.2.2))
  ⟨edge_ref_point, width_z, edge_width_z, edge_angle, num_long_beam, noz, node_list⟩

/-! ### Fixed-sweep (skew) meshing (`Mesh.__fixed_sweep_node_meshing`,
Mesh.py lines 129-178) -/

/-- Body of the inner z-loop (lines 133-150): place one node of the column,
then link it to the previous node of the same column as a transverse
element when `z_count > 0`. -/
def fixed_sweep_z_step {K : Type} [DecidableEq K] (vkey : Coord → Coord → K)
    (zfun : ℚ → ℚ) (x_count : Nat) (x_inc : ℚ)
    (acc : MeshState K × List Nat) (zc : Nat × Coord) :
    Option (MeshState K × List Nat) := do
  let s := acc.1
  let assigned_node_tag := acc.2
  let z_count := zc.1
  let ref_point := zc.2
  let z_inc := zfun x_inc
  let node_coordinate : Coord :=
    (ref_point.1 + x_inc, ref_point.2.1, ref_point.2.2 + z_inc)
  let p := addNode s node_coordinate x_count z_count
  let s := p.2
  let assigned_node_tag := assigned_node_tag ++ [p.1]
  if z_count > 0 then do
    let a ← assigned_node_tag[z_count - 1]?
    let b ← assigned_node_tag[z_count]?
    let s ← assign_transverse_members vkey s a b
    some (s, assigned_node_tag)
  else
    some (s, assigned_node_tag)

/-- One full column of nodes at station `x_inc` (the inner loop of lines
133-150), starting from an empty `assigned_node_tag`. -/
def fixed_sweep_column {K : Type} [DecidableEq K] (vkey : Coord → Coord → K)
    (zfun : ℚ → ℚ) (x_count : Nat) (x_inc : ℚ) (sweeping_nodes : List Coord)
    (s : MeshState K) : Option (MeshState K × List Nat) :=
  sweeping_nodes.enum.foldlM (fixed_sweep_z_step vkey zfun x_count x_inc) (s, [])

/-- The inner scan of the longitudinal join (lines 161-168): walk
`assigned_node_tag` until the first node whose `z_group` equals that of
`pre_node`, returning it together with `cur_z_group` (`none` = a node
lookup raised `KeyError`; `some none` = no match, loop exhausted). -/
def long_join_scan {K : Type} (s : MeshState K) (pre_node : Nat) :
    List Nat → Option (Option (Nat × Nat))
  | [] => some none
  | cur_node :: rest => do
    let cr ← nodeFind? s cur_node
    let pr ← nodeFind? s pre_node
    if cr.z_group = pr.z_group then some (some (cur_node, cr.z_group))
    else long_join_scan s pre_node rest

/-- The longitudinal join loop (lines 160-168 and the identical orthogonal
variants): for every `pre_node` of the previous column, link it to the
first `cur_node` of the current column with matching `z_group`. -/
def link_longitudinal {K : Type} [DecidableEq K] (vkey : Coord → Coord → K)
    (assigned_node_tag : List Nat) (s : MeshState K)
    (previous_node_tag : List Nat) : Option (MeshState K) :=
  previous_node_tag.foldlM (fun s pre_node => do
    let m ← long_join_scan s pre_node assigned_node_tag
    match m with
    | some pc => assign_longitudinal_members vkey s pre_node pc.1 pc.2
    | none => some s) s

/-- Body of the outer station loop of `__fixed_sweep_node_meshing` (lines
132-177): build the column, then at station 0 record the start edge group,
at later stations join longitudinally (recording the end edge group at the
last station); the carried list is `previous_node_tag`. -/
def fixed_sweep_station {K : Type} [DecidableEq K] (vkey : Coord → Coord → K)
    (zfun : ℚ → ℚ) (sweeping_nodes : List Coord) (n_nox : Nat)
    (acc : MeshState K × List Nat) (xc : Nat × ℚ) :
    Option (MeshState K × List Nat) := do
  let s := acc.1
  let previous_node_tag := acc.2
  let x_count := xc.1
  let x_inc := xc.2
  let q ← fixed_sweep_column vkey zfun x_count x_inc sweeping_nodes s
  let s := q.1
  let assigned_node_tag := q.2
  if x_count = 0 then
    let s := record_edge_nodes s assigned_node_tag
    some ({ s with global_edge_count := s.global_edge_count + 1 },
      assigned_node_tag)
  else do
    let s ← link_longitudinal vkey assigned_node_tag s previous_node_tag
    if x_count = n_nox - 1 then
      let s := record_edge_nodes s assigned_node_tag
      some ({ s with global_edge_count := s.global_edge_count + 1 },
        assigned_node_tag)
    else
      some (s, assigned_node_tag)

/-- `Mesh.__fixed_sweep_node_meshing` (lines 129-178). -/
def fixed_sweep_node_meshing {K : Type} [DecidableEq K]
    (vkey : Coord → Coord → K) (zfun : ℚ → ℚ) (nox : List ℚ)
    (sweeping_nodes : List Coord) (s : MeshState K) : Option (MeshState K) := do
  let r ← nox.enum.foldlM
    (fixed_sweep_station vkey zfun sweeping_nodes nox.length) (s, [])
  some r.1

/-- The skew (non-orthogonal, non-curve) construction path of
`Mesh.__init__` (lines 83-127): the sweeping nodes are the start edge
line's node list, `nox = linspace(0, long_dim, num_trans_beam)`, and
`__fixed_sweep_node_meshing` runs from fresh counters.  `m` is the sweep
line slope (`c` is 0), `tanv1` the oracle value of `tan(skew_1·π/180)`. -/
def mesh_construct_skew {K : Type} [DecidableEq K] (vkey : Coord → Coord → K)
    (long_dim width edge_width skew_1 : ℚ) (num_trans_beam num_long_beam : Nat)
    (m : ℚ) (tanv1 : ℚ) : Option (MeshState K) :=
  let start_edge_line :=
    mkEdgeConstructionLine (0, 0, 0) width edge_width skew_1 num_long_beam 0 tanv1
  let sweeping_nodes := start_edge_line.node_list
  let nox := linspace 0 long_dim num_trans_beam
  fixed_sweep_node_meshing vkey (fixed_sweep_zfun m) nox sweeping_nodes initMeshState

/-- C5: for long_dim=10, width=7, num_trans_beam=5, num_long_beam=7,
skew_1=skew_2=0, orthogonal=False and the remaining parameters at their
defaults (pt1=pt2=(0,0,0) gives slope m=0; skew 0 gives tan=0; the edge
width, which no count depends on, is taken as 1), the construction ends
with node_counter 36 (node tags exactly 1..35), 30 transverse elements,
28 longitudinal elements and element_counter 59. -/
theorem skew_mesh_scenario_counts :
    ((mesh_construct_skew (fun _ _ => (0 : Nat)) 10 7 1 0 5 7 0 0).map
      (fun s => (s.node_counter, s.node_spec.map Prod.fst,
        s.trans_ele.length, s.long_ele.length, s.element_counter)))
    = some (36, List.range' 1 35, 30, 28, 59) := by decide

/-! ### `EdgeConstructionLine.get_node_group_z` (Mesh.py lines 830-833) -/

/-- The failure of `list.index`: Python raises
`ValueError("<value> is not in list")`, an error naming the missing
coordinate (as opposed to an opaque `IndexError`/`KeyError`). -/
inductive PyLookupFailure where
  | valueErrorNotInList (coordinate : Coord)
deriving DecidableEq

/-- Python `list.index(c)`: index of the first entry exactly equal to `c`,
else the `ValueError` naming `c`. -/
def list_index : List Coord → Coord → Except PyLookupFailure Nat
  | [], c => .error (.valueErrorNotInList c)
  | a :: rest, c =>
    if a = c then .ok 0 else (list_index rest c).map (· + 1)

/-- `EdgeConstructionLine.get_node_group_z` (lines 830-833):
`self.node_list.index(coordinate)`. -/
def get_node_group_z (ecl : EdgeConstructionLine) (coordinate : Coord) :
    Except PyLookupFailure Nat :=
  list_index ecl.node_list coordinate

theorem list_index_ok_iff (l : List Coord) (c : Coord) (i : Nat) :
    list_index l c = .ok i ↔
      (l[i]? = some c ∧ ∀ j, j < i → l[j]? ≠ some c) := by
  induction l generalizing i with
  | nil =>
    simp only [list_index]
    constructor
    · intro h
      exact Except.noConfusion h
    · intro h
      simp at h
  | cons a rest ih =>
    by_cases ha : a = c
    · subst ha
      simp only [list_index, if_pos rfl]
      cases i with
      | zero => simp
      | succ n =>
        constructor
        · intro h
          simp at h
        · intro h
          have := h.2 0 (Nat.succ_pos n)
          simp at this
    · simp only [list_index, if_neg ha]
      cases i with
      | zero =>
        constructor
        · intro h
          cases hrec : list_index rest c with
          | ok m => rw [hrec] at h; simp [Except.map] at h
          | error e => rw [hrec] at h; simp [Except.map] at h
        · intro h
          simp only [List.getElem?_cons_zero, Option.some_inj] at h
          exact absurd h.1 ha
      | succ n =>
        constructor
        · intro h
          cases hrec : list_index rest c with
          | ok m =>
            rw [hrec] at h
            simp only [Except.map, Except.ok.injEq] at h
            have hm : m = n := by omega
            subst hm
            obtain ⟨h1, h2⟩ := (ih m).mp hrec
            refine ⟨by simpa using h1, ?_⟩
            intro j hj
            cases j with
            | zero => simp [ha]
            | succ j' =>
              simp only [List.getElem?_cons_succ]
              exact h2 j' (by omega)
          | error e => rw [hrec] at h; simp [Except.map] at h
        · intro h
          have h1 : rest[n]? = some c := by simpa using h.1
          have h2 : ∀ j, j < n → rest[j]? ≠ some c := by
            intro j hj
            have := h.2 (j + 1) (by omega)
            simpa using this
          rw [(ih n).mpr ⟨h1, h2⟩]
          rfl

theorem list_index_error_payload (l : List Coord) (c : Coord) :
    ∀ e, list_index l c = .error e → e = .valueErrorNotInList c := by
  induction l with
  | nil =>
    intro e h
    simp only [list_index, Except.error.injEq] at h
    exact h.symm
  | cons a rest ih =>
    intro e h
    by_cases ha : a = c
    · rw [list_index, if_pos ha] at h
      exact Except.noConfusion h
    · rw [list_index, if_neg ha] at h
      cases hrec : list_index rest c with
      | ok m =>
        rw [hrec] at h
        exact Except.noConfusion h
      | error e2 =>
        rw [hrec] at h
        simp only [Except.map, Except.error.injEq] at h
        exact h ▸ ih e2 hrec

theorem list_index_error_iff (l : List Coord) (c : Coord) :
    list_index l c = .error (.valueErrorNotInList c) ↔ c ∉ l := by
  induction l with
  | nil =>
    simp [list_index]
  | cons a rest ih =>
    by_cases ha : a = c
    · subst ha
      rw [list_index, if_pos rfl]
      constructor
      · intro h
        exact Except.noConfusion h
      · intro h
        exact absurd (List.mem_cons_self a rest) h
    · rw [list_index, if_neg ha, List.mem_cons]
      cases hrec : list_index rest c with
      | ok m =>
        simp only [Except.map]
        constructor
        · intro h
          exact Except.noConfusion h
        · intro h
          rw [ih.mpr (fun hm => h (Or.inr hm))] at hrec
          exact Except.noConfusion hrec
      | error e =>
        have he := list_index_error_payload rest c e hrec
        subst he
        simp only [Except.map]
        constructor
        · intro _
          intro h
          rcases h with h | h
          · exact ha h.symm
          · exact ih.mp hrec h
        · intro _
          trivial

/-- C8: `get_node_group_z` returns the index of the first entry of
`node_list` exactly equal to the coordinate, and whenever no equal entry
exists it fails with the `ValueError` that names the missing coordinate
(the clear "not in list" error, not an opaque index failure). -/
theorem get_node_group_z_spec (ecl : EdgeConstructionLine) (c : Coord) :
    (∀ i, get_node_group_z ecl c = .ok i ↔
      (ecl.node_list[i]? = some c ∧ ∀ j, j < i → ecl.node_list[j]? ≠ some c))
    ∧ (get_node_group_z ecl c = .error (.valueErrorNotInList c) ↔
        c ∉ ecl.node_list) :=
  ⟨fun i => list_index_ok_iff ecl.node_list c i,
    list_index_error_iff ecl.node_list c⟩

/-! ### `Mesh.__search_x_point` (Mesh.py lines 761-791)

`find_min_x_dist` lives in the missing `static` module; the spec describes
it as the perpendicular distance between the intersection point and a
candidate sweep-path point, and only order comparisons of its values are
used, so it enters as the oracle `dist`.  The sweep-path elevation is the
oracle `line`.  Note the loop seed: the method signature is
`(int_point, start_point_y=0, ...)` and the caller passes `start_point_x`
into `start_point_y`, so the search starts from `int_point[0]`. -/

def search_x_inc : ℚ := 1 / 1000

/-- The stop condition of one loop body: both perturbed distances exceed
the central one (`d_lb > d0 and d_ub > d0`). -/
def search_min_found (line : ℚ → ℚ) (dist : Coord → Coord → ℚ)
    (int_point : Coord) (y_elevation x : ℚ) : Prop :=
  dist int_point (x - search_x_inc, y_elevation, line (x - search_x_inc)) >
      dist int_point (x, y_elevation, line x)
    ∧ dist int_point (x + search_x_inc, y_elevation, line (x + search_x_inc)) >
      dist int_point (x, y_elevation, line x)

instance (line : ℚ → ℚ) (dist : Coord → Coord → ℚ) (ip : Coord) (y x : ℚ) :
    Decidable (search_min_found line dist ip y x) := by
  unfold search_min_found
  infer_instance

/-- The x-update of one loop body (`elif` chain of lines 780-785): step
toward the strictly smaller neighbor, else stay. -/
def search_step (line : ℚ → ℚ) (dist : Coord → Coord → ℚ)
    (int_point : Coord) (y_elevation x : ℚ) : ℚ :=
  let d0 := dist int_point (x, y_elevation, line x)
  let d_ub := dist int_point (x + search_x_inc, y_elevation, line (x + search_x_inc))
  let d_lb := dist int_point (x - search_x_inc, y_elevation, line (x - search_x_inc))
  if d_lb < d0 ∧ d_ub > d0 then x - search_x_inc
  else if d_lb > d0 ∧ d_ub < d0 then x + search_x_inc
  else x

/-- The `while not min_found` loop (lines 770-789); the third component
counts executed iterations (`loop_counter`), the second returns `z0` as
computed in the final iteration (before any x-update, exactly as the
source returns it). -/
def search_go (line : ℚ → ℚ) (dist : Coord → Coord → ℚ)
    (int_point : Coord) (y_elevation : ℚ) (start_point_x : ℚ)
    (loop_counter : Nat) : ℚ × ℚ × Nat :=
  if search_min_found line dist int_point y_elevation start_point_x then
    (start_point_x, line start_point_x, loop_counter + 1)
  else
    let x' := search_step line dist int_point y_elevation start_point_x
    if 1000 < loop_counter + 1 then (x', line start_point_x, loop_counter + 1)
    else search_go line dist int_point y_elevation x' (loop_counter + 1)
termination_by 1001 - loop_counter
decreasing_by simp_wf; omega

/-- `Mesh.__search_x_point` top level. -/
def search_x_point (line : ℚ → ℚ) (dist : Coord → Coord → ℚ)
    (int_point : Coord) (y_elevation : ℚ) : ℚ × ℚ × Nat :=
  search_go line dist int_point y_elevation int_point.1 0

theorem search_go_count_le (line : ℚ → ℚ) (dist : Coord → Coord → ℚ)
    (ip : Coord) (y : ℚ) :
    ∀ fuel c x, 1001 - c ≤ fuel → c ≤ 1000 →
      (search_go line dist ip y x c).2.2 ≤ 1001 := by
  intro fuel
  induction fuel with
  | zero =>
    intro c x h hc
    omega
  | succ n ih =>
    intro c x h hc
    rw [search_go]
    by_cases hmin : search_min_found line dist ip y x
    · rw [if_pos hmin]
      simpa using by omega
    · rw [if_neg hmin]
      by_cases hcap : 1000 < c + 1
      · simp only [if_pos hcap]
        simpa using by omega
      · simp only [if_neg hcap]
        exact ih (c + 1) _ (by omega) (by omega)

/-- C7: the normal-projection search always terminates within 1001 loop
iterations and returns a plain (possibly unconverged) estimate — no error
path exists; each iteration either stops at a detected local minimum of
the perpendicular distance, or continues from `search_step x`, which is
`x - 0.001`, `x + 0.001` or `x` itself, the hard cap `loop_counter > 1000`
forcing an exit with the current estimate. -/
theorem search_x_point_cap (line : ℚ → ℚ) (dist : Coord → Coord → ℚ)
    (int_point : Coord) (y_elevation : ℚ) :
    ((search_x_point line dist int_point y_elevation).2.2 ≤ 1001
      ∧ 1 ≤ (search_x_point line dist int_point y_elevation).2.2)
    ∧ (∀ x c, (search_min_found line dist int_point y_elevation x →
          search_go line dist int_point y_elevation x c =
            (x, line x, c + 1))
        ∧ (¬ search_min_found line dist int_point y_elevation x →
          (search_step line dist int_point y_elevation x = x - search_x_inc
            ∨ search_step line dist int_point y_elevation x = x + search_x_inc
            ∨ search_step line dist int_point y_elevation x = x)
          ∧ (1000 < c + 1 →
              search_go line dist int_point y_elevation x c =
                (search_step line dist int_point y_elevation x, line x, c + 1))
          ∧ (c + 1 ≤ 1000 →
              search_go line dist int_point y_elevation x c =
                search_go line dist int_point y_elevation
                  (search_step line dist int_point y_elevation x) (c + 1)))) := by
  constructor
  · constructor
    · exact search_go_count_le line dist int_point y_elevation 1001 0 int_point.1
        (by omega) (by omega)
    · unfold search_x_point
      generalize int_point.1 = x0
      have hgen : ∀ fuel c x, 1001 - c ≤ fuel →
          c + 1 ≤ (search_go line dist int_point y_elevation x c).2.2 := by
        intro fuel
        induction fuel with
        | zero =>
          intro c x h
          rw [search_go]
          by_cases hmin : search_min_found line dist int_point y_elevation x
          · rw [if_pos hmin]
          · rw [if_neg hmin]
            have hcap : 1000 < c + 1 := by omega
            simp only [if_pos hcap]
            exact Nat.le_refl _
        | succ n ih =>
          intro c x h
          rw [search_go]
          by_cases hmin : search_min_found line dist int_point y_elevation x
          · rw [if_pos hmin]
          · rw [if_neg hmin]
            by_cases hcap : 1000 < c + 1
            · simp only [if_pos hcap]
              exact Nat.le_refl _
            · simp only [if_neg hcap]
              have hrec := ih (c + 1) (search_step line dist int_point y_elevation x)
                (by omega)
              omega
      exact hgen 1001 0 x0 (by omega)
  · intro x c
    constructor
    · intro hmin
      rw [search_go, if_pos hmin]
    · intro hmin
      refine ⟨?_, ?_, ?_⟩
      · unfold search_step
        by_cases h1 : dist int_point (x - search_x_inc, y_elevation,
            line (x - search_x_inc)) < dist int_point (x, y_elevation, line x)
            ∧ dist int_point (x + search_x_inc, y_elevation,
              line (x + search_x_inc)) > dist int_point (x, y_elevation, line x)
        · simp only [if_pos h1]
          exact Or.inl trivial
        · simp only [if_neg h1]
          by_cases h2 : dist int_point (x - search_x_inc, y_elevation,
              line (x - search_x_inc)) > dist int_point (x, y_elevation, line x)
              ∧ dist int_point (x + search_x_inc, y_elevation,
                line (x + search_x_inc)) < dist int_point (x, y_elevation, line x)
          · simp only [if_pos h2]
            exact Or.inr (Or.inl trivial)
          · simp only [if_neg h2]
            exact Or.inr (Or.inr trivial)
      · intro hcap
        rw [search_go, if_neg hmin]
        simp only [if_pos hcap]
      · intro hcap
        rw [search_go, if_neg hmin]
        have : ¬ 1000 < c + 1 := by omega
        simp only [if_neg this]

/-- Witness for C7 at a concrete search (constant line, constant distance:
the loop never converges and exits exactly at the cap). -/
theorem search_x_point_cap_witness :
    (search_x_point (fun _ => 0) (fun _ _ => 0) (0, 0, 0) 0).2.2 ≤ 1001
    ∧ 1 ≤ (search_x_point (fun _ => 0) (fun _ _ => 0) (0, 0, 0) 0).2.2 :=
  (search_x_point_cap (fun _ => 0) (fun _ _ => 0) (0, 0, 0) 0).1

/-! ### The orthogonal slicing decision (Mesh.py lines 245-250 and
358-363)

`sweep_nodes` and `z_group_recorder` are declared `global` in
`__orthogonal_meshing` (line 181) and assigned only inside the two guarded
branches; `reg` models their incoming value (`none` while unassigned, so a
fall-through with `reg = none` is the `NameError` path). -/

/-- Start-edge slicing (lines 245-250). -/
def start_edge_slicing (skew_1 zeta : ℚ) (current_sweep_nodes : List Coord)
    (z_count z_group : Nat) (reg : Option (List Coord × List Nat)) :
    Option (List Coord × List Nat) :=
  if 90 + skew_1 + zeta > 90 then
    some (current_sweep_nodes.drop z_count,
      List.range' z_group (current_sweep_nodes.length - z_group))
  else if 90 + skew_1 + zeta < 90 then
    some (current_sweep_nodes.take (z_count + 1),
      if z_group ≠ 0 then List.range' 0 (z_group + 1) else [0])
  else reg

/-- End-edge slicing (lines 358-363), mirrored. -/
def end_edge_slicing (skew_2 zeta : ℚ) (current_sweep_nodes : List Coord)
    (z_count z_group : Nat) (reg : Option (List Coord × List Nat)) :
    Option (List Coord × List Nat) :=
  if 90 + skew_2 + zeta > 90 then
    some (current_sweep_nodes.take (z_count + 1),
      if z_group ≠ 0 then List.range' 0 (z_group + 1) else [0])
  else if 90 + skew_2 + zeta < 90 then
    some (current_sweep_nodes.drop z_count,
      List.range' z_group (current_sweep_nodes.length - z_group))
  else reg

/-- C10: the search branch of the orthogonal start-edge region runs only
when `|skew_1 + ζ| < 11` fails (line 191), and then `90 + skew_1 + ζ` is
never exactly 90, so exactly one slicing branch executes and
`sweep_nodes`/`z_group_recorder` are assigned (`isSome` even from an
unassigned register) — the NameError path is unreachable; symmetrically
for the end edge with `skew_2` (line 314). -/
theorem orthogonal_slicing_assigned (skew_1 skew_2 zeta : ℚ)
    (current_sweep_nodes : List Coord) (z_count z_group : Nat)
    (h1 : ¬ |skew_1 + zeta| < 11) (h2 : ¬ |skew_2 + zeta| < 11) :
    ((90 + skew_1 + zeta > 90 ∨ 90 + skew_1 + zeta < 90)
      ∧ ¬ (90 + skew_1 + zeta > 90 ∧ 90 + skew_1 + zeta < 90)
      ∧ (start_edge_slicing skew_1 zeta current_sweep_nodes
          z_count z_group none).isSome)
    ∧ ((90 + skew_2 + zeta > 90 ∨ 90 + skew_2 + zeta < 90)
      ∧ ¬ (90 + skew_2 + zeta > 90 ∧ 90 + skew_2 + zeta < 90)
      ∧ (end_edge_slicing skew_2 zeta current_sweep_nodes
          z_count z_group none).isSome) := by
  have habs : ∀ q : ℚ, ¬ |q| < 11 → q ≠ 0 := by
    intro q h hq
    rw [hq] at h
    simp at h
  have hz1 : skew_1 + zeta ≠ 0 := habs _ h1
  have hz2 : skew_2 + zeta ≠ 0 := habs _ h2
  constructor
  · rcases lt_or_gt_of_ne hz1 with h | h
    · refine ⟨Or.inr (by linarith), fun hc => absurd hc.1 (by linarith), ?_⟩
      unfold start_edge_slicing
      rw [if_neg (by linarith), if_pos (by linarith)]
      rfl
    · refine ⟨Or.inl (by linarith), fun hc => absurd hc.2 (by linarith), ?_⟩
      unfold start_edge_slicing
      rw [if_pos (by linarith)]
      rfl
  · rcases lt_or_gt_of_ne hz2 with h | h
    · refine ⟨Or.inr (by linarith), fun hc => absurd hc.1 (by linarith), ?_⟩
      unfold end_edge_slicing
      rw [if_neg (by linarith), if_pos (by linarith)]
      rfl
    · refine ⟨Or.inl (by linarith), fun hc => absurd hc.2 (by linarith), ?_⟩
      unfold end_edge_slicing
      rw [if_pos (by linarith)]
      rfl

/-- Witness for C10 at skew angles 20 and -42 with ζ = 0. -/
theorem orthogonal_slicing_assigned_witness :
    ((90 + 20 + 0 > (90 : ℚ) ∨ 90 + 20 + 0 < (90 : ℚ))
      ∧ ¬ (90 + 20 + 0 > (90 : ℚ) ∧ 90 + 20 + 0 < (90 : ℚ))
      ∧ (start_edge_slicing 20 0 [] 0 0 none).isSome)
    ∧ ((90 + (-42) + 0 > (90 : ℚ) ∨ 90 + (-42) + 0 < (90 : ℚ))
      ∧ ¬ (90 + (-42) + 0 > (90 : ℚ) ∧ 90 + (-42) + 0 < (90 : ℚ))
      ∧ (end_edge_slicing (-42) 0 [] 0 0 none).isSome) :=
  orthogonal_slicing_assigned 20 (-42) 0 [] 0 0 (by norm_num) (by norm_num)

deriving instance DecidableEq for Except

/-! ### SweepPath (Mesh.py lines 836-884) -/

/-- Determinant of the circle-fit linear system for the circle through
`(x1,y1)`, `(x2,y2)`, `(x3,y3)`: zero exactly when the points are
collinear. -/
def circle_det (x1 y1 x2 y2 x3 y3 : ℚ) : ℚ :=
  2 * (x1 * (y2 - y3) + x2 * (y3 - y1) + x3 * (y1 - y2))

/-- Modelled from the spec: `findCircle` lives in the repository's `static`
module, which is not under src/.  The spec: "computes circle center/radius
through (0,0), pt2, pt3; fails with a domain error ... if the three points
are collinear (degenerate determinant in the circle-fit)", the failure
surfacing as the `ZeroDivisionError` that the caller catches.  The center
solves the perpendicular-bisector system (Cramer over `circle_det`); the
radius is carried squared, its square root being irrational (no claim uses
the value). -/
def findCircle (x1 y1 x2 y2 x3 y3 : ℚ) : Except Unit (ℚ × ℚ × ℚ) :=
  let det := circle_det x1 y1 x2 y2 x3 y3
  if det = 0 then .error ()
  else
    let a1 := x1 ^ 2 + y1 ^ 2
    let a2 := x2 ^ 2 + y2 ^ 2
    let a3 := x3 ^ 2 + y3 ^ 2
    let ux := (a1 * (y2 - y3) + a2 * (y3 - y1) + a3 * (y1 - y2)) / det
    let uy := (a1 * (x3 - x2) + a2 * (x1 - x3) + a3 * (x2 - x1)) / det
    .ok (ux, uy, (x1 - ux) ^ 2 + (y1 - uy) ^ 2)

/-- State of a `SweepPath` object: `__init__` (lines 837-852) sets
`curve_path = False`, `zeta = None`, `m = None`, `c = 0`; `d` is only ever
assigned inside `get_sweep_line_properties`. -/
structure SweepPathState where
  pt1 : Coord
  pt2 : Coord
  pt3 : Option Coord
  curve_path : Bool
  zeta : Option ℚ
  m : Option ℚ
  c : ℚ
  d : Option (ℚ × ℚ × ℚ)
deriving DecidableEq

def mkSweepPath (pt1 pt2 : Coord) (pt3 : Option Coord) : SweepPathState :=
  ⟨pt1, pt2, pt3, false, none, none, 0, none⟩

/-- What `get_sweep_line_properties` gives back to its caller: either the
tuple `(zeta, m, c)` or — in the degenerate-circle branch — an `Exception`
OBJECT returned as an ordinary value (`return Exception(...)`, line 860:
the exception is returned, not raised). -/
inductive SweepLineResult where
  | props (zeta : Option ℚ) (m : Option ℚ) (c : ℚ)
  | exceptionValue (msg : String)
deriving DecidableEq

/-- Modelled from the spec: the two-point least-squares line fit of
`get_sweep_line_properties` (`np.linalg.lstsq` over the two control
points): for distinct abscissae it is the exact interpolating slope; for
equal abscissae (reachable only through the degenerate default
pt1 = pt2 = (0,0,0)) the minimum-norm least-squares solution has slope 0. -/
def lstsq_slope (p1 p2 : ℚ × ℚ) : ℚ :=
  if p1.1 = p2.1 then 0 else (p2.2 - p1.2) / (p2.1 - p1.1)

/-- `SweepPath.get_sweep_line_properties` (lines 854-877).  In the curve
branch a successful `findCircle` sets `d` and `curve_path` and the method
falls through to `self.zeta = 0` and `return (self.zeta, self.m, self.c)`
(`m` still `None`); a `ZeroDivisionError` is caught and an `Exception`
value is RETURNED, the state untouched.  In the line branch `self.m` is
the slope rounded to 4 decimals, `self.c` stays 0, and `self.zeta` is
`arctan(m)` converted to degrees (the oracle `arctan_deg`). -/
def get_sweep_line_properties (arctan_deg : ℚ → ℚ) (s : SweepPathState) :
    SweepLineResult × SweepPathState :=
  match s.pt3 with
  | some pt3 =>
    match findCircle 0 0 s.pt2.1 s.pt2.2.2 pt3.1 pt3.2.2 with
    | .ok dval =>
      let s' := { s with d := some dval, curve_path := true, zeta := some 0 }
      (.props s'.zeta s'.m s'.c, s')
    | .error _ =>
      (.exceptionValue "Zero div error. Point 3 not valid to construct curve line", s)
  | none =>
    let m0 := lstsq_slope (s.pt1.1, s.pt1.2.2) (s.pt2.1, s.pt2.2.2)
    let s' := { s with
      d := none
      m := some (np_round 4 m0)
      zeta := some (arctan_deg m0) }
    (.props s'.zeta s'.m s'.c, s')

/-- `SweepPath.get_line_function` (lines 879-884): the straight case
evaluates `line_func(self.m, self.c, x)` (raising a `TypeError` if `m` is
still `None` ⇒ `.error`); the curve case is `pass`, so Python returns
`None` (`.ok none`). -/
def get_line_function (s : SweepPathState) (x : ℚ) : Except Unit (Option ℚ) :=
  if s.curve_path = false then
    match s.m with
    | some m => .ok (some (line_func m s.c x))
    | none => .error ()
  else
    .ok none

/-- C4 evaluation at a failing input (collinear (0,0,0), (2,0,2),
(4,0,4)): the circle fit degenerates and `get_sweep_line_properties`
RETURNS the `Exception` object as an ordinary value instead of raising a
descriptive domain error; no center/radius is fabricated (`d` stays unset,
`curve_path` stays false).  The enclosing `Mesh.__init__` (line 84) then
fails opaquely unpacking the returned `Exception` object. -/
theorem collinear_sweep_returns_exception_value :
    (get_sweep_line_properties (fun q => q)
        (mkSweepPath (0, 0, 0) (2, 0, 2) (some (4, 0, 4)))).1
      = .exceptionValue "Zero div error. Point 3 not valid to construct curve line"
    ∧ (get_sweep_line_properties (fun q => q)
        (mkSweepPath (0, 0, 0) (2, 0, 2) (some (4, 0, 4)))).2.d = none
    ∧ (get_sweep_line_properties (fun q => q)
        (mkSweepPath (0, 0, 0) (2, 0, 2) (some (4, 0, 4)))).2.curve_path = false := by
  with_unfolding_all decide

/-- Counterexample to C9: a valid (non-collinear) arc — the circle fit
succeeds — for which the elevation query does not return an elevation
value: it returns Python `None` (`.ok none`). -/
theorem arc_line_function_returns_none :
    (findCircle 0 0 1 1 2 0).isOk = true
    ∧ get_line_function
        (get_sweep_line_properties (fun q => q)
          (mkSweepPath (0, 0, 0) (1, 0, 1) (some (2, 0, 0)))).2 0
      = .ok none := by
  with_unfolding_all decide

/-- C9 amended: for every SweepPath built on three non-collinear control
points (nonzero circle-fit determinant), after obtaining the sweep-line
properties the elevation query exists and can be evaluated at every `x`
without raising, but it returns no elevation value (Python `None`): the
arc elevation query is unimplemented. -/
theorem arc_line_function_unimplemented (pt1 pt2 pt3 : Coord)
    (arctan_deg : ℚ → ℚ) (x : ℚ)
    (h : circle_det 0 0 pt2.1 pt2.2.2 pt3.1 pt3.2.2 ≠ 0) :
    get_line_function
        (get_sweep_line_properties arctan_deg (mkSweepPath pt1 pt2 (some pt3))).2 x
      = .ok none := by
  unfold get_sweep_line_properties mkSweepPath
  simp only
  unfold findCircle
  simp only [if_neg h]
  rfl

/-- Witness for the amended C9 at the concrete arc (0,0,0), (1,0,1),
(2,0,0). -/
theorem arc_line_function_unimplemented_witness :
    circle_det 0 0 (1 : ℚ) 1 2 0 ≠ 0
    ∧ get_line_function
        (get_sweep_line_properties (fun q => q)
          (mkSweepPath (0, 0, 0) (1, 0, 1) (some (2, 0, 0)))).2 5
      = .ok none :=
  ⟨by with_unfolding_all decide,
    arc_line_function_unimplemented (0, 0, 0) (1, 0, 1) (2, 0, 0)
      (fun q => q) 5 (by with_unfolding_all decide)⟩

/-! ### Orthogonal meshing (`Mesh.__orthogonal_meshing`, Mesh.py lines
180-482)

The irrational-valued helpers enter as a `GeoOracle`: `get_slope`
(from the missing `static` module; only `|phi|` is consumed), `arctan`,
`π`, `cos`, `sin`, the sweep-path elevation `line`
(`sweep_path.get_line_function`, straight case) and the `find_min_x_dist`
distance used by the search.  Everything else — counters, slicing, group
assignment, container updates — is exact. -/

structure GeoOracle where
  get_slope : Coord → Coord → ℚ × ℚ
  arctan : ℚ → ℚ
  pi : ℚ
  cos : ℚ → ℚ
  sin : ℚ → ℚ
  line : ℚ → ℚ
  dist : Coord → Coord → ℚ

/-- The construction parameters consumed by `__orthogonal_meshing`. -/
structure OrthoParams where
  long_dim : ℚ
  num_trans_beam : Nat
  skew_1 : ℚ
  skew_2 : ℚ
  zeta : ℚ
  mesh_origin : Coord
  noz : List ℚ
  start_node_list : List Coord
  end_node_list : List Coord

/-- `Mesh.__rotate_sweep_nodes` (lines 749-759).  Note the source quirk:
`sweep_nodes_z` is computed by zipping the ALREADY-ROTATED x list with
`noz` (z = y·cos ζ + x'·sin ζ with x' = −y·sin ζ).  `cosv`/`sinv` are the
oracle values of cos ζ and sin ζ. -/
def rotate_sweep_nodes (noz : List ℚ) (mesh_origin : Coord) (y_elevation : ℚ)
    (cosv sinv : ℚ) : List Coord :=
  let sweep_nodes_x := noz.map (fun y => 0 * cosv - y * sinv)
  let sweep_nodes_z := (sweep_nodes_x.zip noz).map (fun p => p.2 * cosv + p.1 * sinv)
  (sweep_nodes_x.zip sweep_nodes_z).map (fun p =>
    (p.1 + mesh_origin.1, y_elevation + mesh_origin.2.1, p.2 + mesh_origin.2.2))

/-- The mutable context threaded across the three phases:
`previous_node_tag`, the two connecting-region node lists, and the
module-global `sweep_nodes`/`z_group_recorder` register (`reg`, `none`
while never assigned). -/
structure OrthoPhaseState (K : Type) where
  s : MeshState K
  previous_node_tag : List Nat
  first_connecting_region_nodes : List Nat
  end_connecting_region_nodes : List Nat
  reg : Option (List Coord × List Nat)
deriving DecidableEq

/-- Node placement of a search-branch column (lines 252-267): `z_group` is
read from `z_group_recorder[z_count_int]` (IndexError ⇒ `none`),
`x_group` is the current `global_x_grid_count`; consecutive column nodes
are linked as transverse members. -/
def ortho_place_step {K : Type} [DecidableEq K] (vkey : Coord → Coord → K)
    (x_inc z_inc : ℚ) (z_group_recorder : List Nat)
    (acc : MeshState K × List Nat) (zc : Nat × Coord) :
    Option (MeshState K × List Nat) := do
  let s := acc.1
  let assigned := acc.2
  let z_count_int := zc.1
  let nodes := zc.2
  let zg ← z_group_recorder[z_count_int]?
  let node_coordinate : Coord := (nodes.1 + x_inc, nodes.2.1, nodes.2.2 + z_inc)
  let p := addNode s node_coordinate s.global_x_grid_count zg
  let s := p.2
  let assigned := assigned ++ [p.1]
  if z_count_int > 0 then do
    let a ← assigned[z_count_int - 1]?
    let b ← assigned[z_count_int]?
    let s ← assign_transverse_members vkey s a b
    some (s, assigned)
  else
    some (s, assigned)

/-- Node placement of a below-threshold (simple) edge column (lines
194-218 and 317-339): `z_group` is the plain enumeration index,
consecutive nodes are linked as EDGE-span members (the transverse link is
commented out in the source) and both ends are recorded as edge nodes. -/
def ortho_edge_simple_step {K : Type} [DecidableEq K] (vkey : Coord → Coord → K)
    (x_inc z_inc : ℚ) (acc : MeshState K × List Nat) (zc : Nat × Coord) :
    Option (MeshState K × List Nat) := do
  let s := acc.1
  let assigned := acc.2
  let z_count_int := zc.1
  let nodes := zc.2
  let node_coordinate : Coord := (nodes.1 + x_inc, nodes.2.1, nodes.2.2 + z_inc)
  let p := addNode s node_coordinate s.global_x_grid_count z_count_int
  let s := p.2
  let assigned := assigned ++ [p.1]
  if z_count_int > 0 then
    if 1 ≤ assigned.length then do
      let a ← assigned[z_count_int - 1]?
      let b ← assigned[z_count_int]?
      let s ← assign_edge_trans_members vkey s a b s.global_edge_count
      some (record_edge_nodes s [a, b], assigned)
    else
      some (s, assigned)
  else
    some (s, assigned)

/-- The `if len(assigned) == len(noz)` connecting-region capture (lines
219-220, 300-301, 341-342, 410-411).  In the simple branches the captured
Python list keeps growing by aliasing, so the capture fires exactly when
the final column length has passed through `len(noz)`; in the search
branches the check runs once per finished column. -/
def connecting_capture (noz_len : Nat) (assigned old : List Nat) : List Nat :=
  if 1 ≤ noz_len ∧ noz_len ≤ assigned.length then assigned else old

/-- Start-edge region, below-threshold branch (lines 191-223):
`x_inc`/`z_inc` come from the mesh origin; then
`global_x_grid_count += 1` (no edge-count bump here). -/
def ortho_start_simple {K : Type} [DecidableEq K] (vkey : Coord → Coord → K)
    (P : OrthoParams) (ps : OrthoPhaseState K) : Option (OrthoPhaseState K) := do
  let q ← (P.start_node_list.enum).foldlM
    (ortho_edge_simple_step vkey P.mesh_origin.1 P.mesh_origin.2.2) (ps.s, [])
  let s := q.1
  let assigned := q.2
  let first := connecting_capture P.noz.length assigned ps.first_connecting_region_nodes
  let s := { s with global_x_grid_count := s.global_x_grid_count + 1 }
  some { ps with s := s, first_connecting_region_nodes := first }

/-- The per-column joining block of the start-edge search branch (lines
269-297): the longitudinal join against the previous column, then the
skewed edge member taken from the FIRST pair when `90 + skew_1 + ζ > 90`
and from the LAST pair when `< 90`, both ends recorded as edge nodes. -/
def ortho_start_join {K : Type} [DecidableEq K] (vkey : Coord → Coord → K)
    (P : OrthoParams) (z_count : Nat) (previous : List Nat)
    (q : MeshState K × List Nat) : Option (MeshState K × List Nat) :=
  if z_count = 0 then some (q.1, q.2)
  else do
    let s ← link_longitudinal vkey q.2 q.1 previous
    if 1 ≤ q.2.length then
      if 90 + P.skew_1 + P.zeta > 90 then do
        let a ← previous[0]?
        let b ← q.2[0]?
        let s ← assign_edge_trans_members vkey s a b s.global_edge_count
        some (record_edge_nodes s [a, b], q.2)
      else if 90 + P.skew_1 + P.zeta < 90 then do
        let a ← previous.getLast?
        let b ← q.2.getLast?
        let s ← assign_edge_trans_members vkey s a b s.global_edge_count
        some (record_edge_nodes s [a, b], q.2)
      else some (s, q.2)
    else some (s, q.2)

/-- The joining block of the end-edge search branch (lines 381-407),
mirrored: LAST pair for `> 90`, FIRST pair for `< 90`. -/
def ortho_end_join {K : Type} [DecidableEq K] (vkey : Coord → Coord → K)
    (P : OrthoParams) (z_count : Nat) (previous : List Nat)
    (q : MeshState K × List Nat) : Option (MeshState K × List Nat) :=
  if z_count = 0 then some (q.1, q.2)
  else do
    let s ← link_longitudinal vkey q.2 q.1 previous
    if 1 ≤ q.2.length then
      if 90 + P.skew_2 + P.zeta > 90 then do
        let a ← previous.getLast?
        let b ← q.2.getLast?
        let s ← assign_edge_trans_members vkey s a b s.global_edge_count
        some (record_edge_nodes s [a, b], q.2)
      else if 90 + P.skew_2 + P.zeta < 90 then do
        let a ← previous[0]?
        let b ← q.2[0]?
        let s ← assign_edge_trans_members vkey s a b s.global_edge_count
        some (record_edge_nodes s [a, b], q.2)
      else some (s, q.2)
    else some (s, q.2)

/-- One intersection point of the start-edge search branch (lines
226-303). -/
def ortho_start_search_step {K : Type} [DecidableEq K] (vkey : Coord → Coord → K)
    (g : GeoOracle) (P : OrthoParams) (ps : OrthoPhaseState K)
    (zc : Nat × Coord) : Option (OrthoPhaseState K) := do
  let z_count := zc.1
  let int_point := zc.2
  let r := search_x_point g.line g.dist int_point 0
  let ref_point_x := r.1
  let ref_point_z := r.2.1
  let mp := g.get_slope (ref_point_x, 0, ref_point_z) int_point
  let phi := mp.2
  let angle := if P.skew_1 > 0 then g.arctan (P.zeta / 180 * g.pi)
    else g.pi / 2 - |phi|
  let current_sweep_nodes :=
    rotate_sweep_nodes P.noz P.mesh_origin 0 (g.cos angle) (g.sin angle)
  let z_group ← (list_index P.start_node_list int_point).toOption
  let sw ← start_edge_slicing P.skew_1 P.zeta current_sweep_nodes z_count z_group ps.reg
  let q ← (sw.1.enum).foldlM
    (ortho_place_step vkey ref_point_x ref_point_z sw.2) (ps.s, [])
  let sp ← ortho_start_join vkey P z_count ps.previous_node_tag q
  let s := { sp.1 with global_x_grid_count := sp.1.global_x_grid_count + 1 }
  let first := if q.2.length = P.noz.length then q.2
    else ps.first_connecting_region_nodes
  some { ps with
    s := s
    previous_node_tag := sp.2
    first_connecting_region_nodes := first
    reg := some sw }

/-- Start-edge region dispatcher (lines 186-305): threshold
`|skew_1 + ζ| < 11` selects the simple branch, otherwise the search
branch, which bumps `global_edge_count` once after its loop. -/
def ortho_start_edge {K : Type} [DecidableEq K] (vkey : Coord → Coord → K)
    (g : GeoOracle) (P : OrthoParams) (ps : OrthoPhaseState K) :
    Option (OrthoPhaseState K) :=
  if |P.skew_1 + P.zeta| < 11 then
    ortho_start_simple vkey P ps
  else do
    let ps ← (P.start_node_list.enum).foldlM (ortho_start_search_step vkey g P) ps
    some { ps with s :=
      { ps.s with global_edge_count := ps.s.global_edge_count + 1 } }

/-- End-edge region, below-threshold branch (lines 314-343): here
`x_inc = z_inc = 0` and `global_x_grid_count += 1` after the loop. -/
def ortho_end_simple {K : Type} [DecidableEq K] (vkey : Coord → Coord → K)
    (P : OrthoParams) (ps : OrthoPhaseState K) : Option (OrthoPhaseState K) := do
  let q ← (P.end_node_list.enum).foldlM
    (ortho_edge_simple_step vkey 0 0) (ps.s, [])
  let s := q.1
  let assigned := q.2
  let endc := connecting_capture P.noz.length assigned ps.end_connecting_region_nodes
  let s := { s with global_x_grid_count := s.global_x_grid_count + 1 }
  some { ps with s := s, end_connecting_region_nodes := endc }

/-- One intersection point of the end-edge search branch (lines 345-413):
the rotation angle is always `π/2 − |φ|`, the slicing is mirrored
(`end_edge_slicing`) and the skewed edge members take the LAST pair for
the `> 90` case and the FIRST pair for `< 90`. -/
def ortho_end_search_step {K : Type} [DecidableEq K] (vkey : Coord → Coord → K)
    (g : GeoOracle) (P : OrthoParams) (ps : OrthoPhaseState K)
    (zc : Nat × Coord) : Option (OrthoPhaseState K) := do
  let z_count := zc.1
  let int_point := zc.2
  let r := search_x_point g.line g.dist int_point 0
  let ref_point_x := r.1
  let ref_point_z := r.2.1
  let mp := g.get_slope (ref_point_x, 0, ref_point_z) int_point
  let phi := mp.2
  let current_sweep_nodes :=
    rotate_sweep_nodes P.noz P.mesh_origin 0 (g.cos (g.pi / 2 - |phi|))
      (g.sin (g.pi / 2 - |phi|))
  let z_group ← (list_index P.end_node_list int_point).toOption
  let sw ← end_edge_slicing P.skew_2 P.zeta current_sweep_nodes z_count z_group ps.reg
  let q ← (sw.1.enum).foldlM
    (ortho_place_step vkey ref_point_x ref_point_z sw.2) (ps.s, [])
  let sp ← ortho_end_join vkey P z_count ps.previous_node_tag q
  let s := { sp.1 with global_x_grid_count := sp.1.global_x_grid_count + 1 }
  let endc := if q.2.length = P.noz.length then q.2
    else ps.end_connecting_region_nodes
  some { ps with
    s := s
    previous_node_tag := sp.2
    end_connecting_region_nodes := endc
    reg := some sw }

/-- End-edge region dispatcher (lines 311-415). -/
def ortho_end_edge {K : Type} [DecidableEq K] (vkey : Coord → Coord → K)
    (g : GeoOracle) (P : OrthoParams) (ps : OrthoPhaseState K) :
    Option (OrthoPhaseState K) :=
  if |P.skew_2 + P.zeta| < 11 then
    ortho_end_simple vkey P ps
  else do
    let ps ← (P.end_node_list.enum).foldlM (ortho_end_search_step vkey g P) ps
    some { ps with s :=
      { ps.s with global_edge_count := ps.s.global_edge_count + 1 } }

/-- Node placement of a uniform-region column (lines 436-450): `z_group`
is the plain enumeration index, transverse links between consecutive
column nodes. -/
def ortho_uniform_place_step {K : Type} [DecidableEq K] (vkey : Coord → Coord → K)
    (x_inc z_inc : ℚ) (acc : MeshState K × List Nat) (zc : Nat × Coord) :
    Option (MeshState K × List Nat) := do
  let s := acc.1
  let assigned := acc.2
  let z_count_int := zc.1
  let nodes := zc.2
  let node_coordinate : Coord := (nodes.1 + x_inc, nodes.2.1, nodes.2.2 + z_inc)
  let p := addNode s node_coordinate s.global_x_grid_count z_count_int
  let s := p.2
  let assigned := assigned ++ [p.1]
  if z_count_int > 0 then do
    let a ← assigned[z_count_int - 1]?
    let b ← assigned[z_count_int]?
    let s ← assign_transverse_members vkey s a b
    some (s, assigned)
  else
    some (s, assigned)

/-- One station of the uniform interior region (lines 429-471).  The
accumulator carries `(state, previous_node_tag, assigned_node_tag)`; at
the last station the source swaps `assigned` to the end-connecting nodes
instead of resetting it. -/
def ortho_uniform_step {K : Type} [DecidableEq K] (vkey : Coord → Coord → K)
    (g : GeoOracle) (P : OrthoParams) (inner_len : Nat)
    (first_connecting end_connecting : List Nat)
    (acc : MeshState K × List Nat × List Nat) (zx : Nat × ℚ) :
    Option (MeshState K × List Nat × List Nat) := do
  let s := acc.1
  let previous := acc.2.1
  let z_count := zx.1
  let x := zx.2
  let z := g.line x
  let current_sweep_nodes :=
    rotate_sweep_nodes P.noz P.mesh_origin 0 (g.cos (P.zeta / 180 * g.pi))
      (g.sin (P.zeta / 180 * g.pi))
  let q ← (current_sweep_nodes.enum).foldlM
    (ortho_uniform_place_step vkey x z) (s, acc.2.2)
  let s := q.1
  let assigned := q.2
  let previous := if z_count = 0 then first_connecting else previous
  let s ← link_longitudinal vkey assigned s previous
  let s := { s with global_x_grid_count := s.global_x_grid_count + 1 }
  if z_count ≠ inner_len - 1 then
    some (s, assigned, [])
  else
    some (s, assigned, end_connecting)

/-- Uniform interior region plus the extra end join (lines 417-481):
`uniform_region_x = linspace(x of first connecting node, x of end
connecting node, num_trans_beam)`, iterated over its interior `[1:-1]`;
finally the last uniform column is joined to the end-edge column. -/
def ortho_uniform_region {K : Type} [DecidableEq K] (vkey : Coord → Coord → K)
    (g : GeoOracle) (P : OrthoParams) (ps : OrthoPhaseState K) :
    Option (MeshState K) := do
  let x_first ← ps.first_connecting_region_nodes[0]?
  let x_second ← ps.end_connecting_region_nodes[0]?
  let cor_fir ← nodeFind? ps.s x_first
  let cor_sec ← nodeFind? ps.s x_second
  let uniform_region_x :=
    linspace cor_fir.coordinate.1 cor_sec.coordinate.1 P.num_trans_beam
  let inner := (uniform_region_x.drop 1).dropLast
  let q ← (inner.enum).foldlM
    (ortho_uniform_step vkey g P inner.length ps.first_connecting_region_nodes
      ps.end_connecting_region_nodes)
    (ps.s, ps.previous_node_tag, [])
  link_longitudinal vkey q.2.2 q.1 q.2.1

/-- `Mesh.__orthogonal_meshing` (lines 180-482): start-edge region,
end-edge region, uniform interior. -/
def orthogonal_meshing {K : Type} [DecidableEq K] (vkey : Coord → Coord → K)
    (g : GeoOracle) (P : OrthoParams) (s : MeshState K) :
    Option (MeshState K) := do
  let ps : OrthoPhaseState K := ⟨s, [], [], [], none⟩
  let ps ← ortho_start_edge vkey g P ps
  let ps ← ortho_end_edge vkey g P ps
  ortho_uniform_region vkey g P ps

/-- The orthogonal construction path of `Mesh.__init__` (lines 83-121):
both edge construction lines are built (the end line at
`[long_dim, 0, line(long_dim)]`), `noz` is the start line's offsets, and
`__orthogonal_meshing` runs from fresh counters. -/
def mesh_construct_ortho {K : Type} [DecidableEq K] (vkey : Coord → Coord → K)
    (g : GeoOracle) (long_dim width edge_width skew_1 skew_2 zeta : ℚ)
    (num_trans_beam num_long_beam : Nat) (tanv1 tanv2 : ℚ) :
    Option (MeshState K) :=
  let start_edge_line :=
    mkEdgeConstructionLine (0, 0, 0) width edge_width skew_1 num_long_beam 0 tanv1
  let end_point_z := g.line long_dim
  let end_edge_line :=
    mkEdgeConstructionLine (long_dim, 0, end_point_z) width edge_width skew_2
      num_long_beam 0 tanv2
  let P : OrthoParams :=
    ⟨long_dim, num_trans_beam, skew_1, skew_2, zeta, (0, 0, 0),
      start_edge_line.noz, start_edge_line.node_list, end_edge_line.node_list⟩
  orthogonal_meshing vkey g P initMeshState

/-! ### Invariants: contiguous node tags (C2) and valid element endpoints
(C3) -/

/-- C2-facing node invariant: the keys of `node_spec` are exactly
`1, ..., node_counter - 1` (in insertion order) and every record stores its
key as its `tag`. -/
def NodesOk {K : Type} (s : MeshState K) : Prop :=
  s.node_spec.map Prod.fst = List.range' 1 (s.node_counter - 1)
  ∧ 1 ≤ s.node_counter
  ∧ ∀ p ∈ s.node_spec, p.2.tag = p.1

/-- C3-facing element invariant, phrased through tag bounds (equivalent to
key membership under `NodesOk`). -/
def EleOk {K : Type} (s : MeshState K) (e : Element) : Prop :=
  (1 ≤ e.node_i ∧ e.node_i < s.node_counter)
  ∧ (1 ≤ e.node_j ∧ e.node_j < s.node_counter)
  ∧ e.node_i ≠ e.node_j

def ElesOk {K : Type} (s : MeshState K) : Prop :=
  ∀ e, (e ∈ s.long_ele ∨ e ∈ s.trans_ele ∨ e ∈ s.edge_span_ele) → EleOk s e

def Inv {K : Type} (s : MeshState K) : Prop := NodesOk s ∧ ElesOk s

/-- All tags of a recorded column list are valid keys of the state. -/
def TagsBounded {K : Type} (s : MeshState K) (l : List Nat) : Prop :=
  ∀ t ∈ l, 1 ≤ t ∧ t < s.node_counter

theorem dictFind?_isSome_iff {K V : Type} [DecidableEq K] (d : List (K × V)) (k : K) :
    (dictFind? d k).isSome ↔ k ∈ d.map Prod.fst := by
  induction d with
  | nil => simp [dictFind?]
  | cons p rest ih =>
    by_cases h : p.1 = k
    · simp [dictFind?, h]
    · simp only [dictFind?, h, if_false, ih, List.map_cons, List.mem_cons]
      constructor
      · exact Or.inr
      · rintro (rfl | hm)
        · exact absurd rfl h
        · exact hm

theorem mem_range'_iff (n k : Nat) : k ∈ List.range' 1 n ↔ 1 ≤ k ∧ k < n + 1 := by
  rw [List.mem_range']
  constructor
  · rintro ⟨i, hi, rfl⟩
    omega
  · rintro ⟨h1, h2⟩
    exact ⟨k - 1, by omega, by omega⟩

/-- Under `NodesOk`, a tag is a key of `node_spec` iff it lies in
`[1, node_counter)`. -/
theorem nodeFind?_isSome_iff {K : Type} (s : MeshState K) (h : NodesOk s) (n : Nat) :
    (nodeFind? s n).isSome ↔ 1 ≤ n ∧ n < s.node_counter := by
  have hc := h.2.1
  rw [nodeFind?, dictFind?_isSome_iff, h.1, mem_range'_iff]
  omega

theorem addNode_fields {K : Type} (s : MeshState K) (coord : Coord) (xg zg : Nat)
    (h : NodesOk s) :
    (addNode s coord xg zg).1 = s.node_counter
    ∧ (addNode s coord xg zg).2.node_counter = s.node_counter + 1
    ∧ NodesOk (addNode s coord xg zg).2
    ∧ (addNode s coord xg zg).2.long_ele = s.long_ele
    ∧ (addNode s coord xg zg).2.trans_ele = s.trans_ele
    ∧ (addNode s coord xg zg).2.edge_span_ele = s.edge_span_ele
    ∧ (addNode s coord xg zg).2.element_counter = s.element_counter
    ∧ (addNode s coord xg zg).2.global_x_grid_count = s.global_x_grid_count
    ∧ (addNode s coord xg zg).2.global_edge_count = s.global_edge_count := by
  have hkey : (dictFind? s.node_spec s.node_counter) = none := by
    cases hfd : dictFind? s.node_spec s.node_counter with
    | none => rfl
    | some v =>
      have : (dictFind? s.node_spec s.node_counter).isSome := by simp [hfd]
      rw [dictFind?_isSome_iff, h.1, mem_range'_iff] at this
      have hc := h.2.1
      omega
  unfold addNode dictSetdefault
  rw [hkey]
  have hc := h.2.1
  refine ⟨rfl, rfl, ?_, rfl, rfl, rfl, rfl, rfl, rfl⟩
  refine ⟨?_, by show 1 ≤ s.node_counter + 1; omega, ?_⟩
  · show (s.node_spec ++ [(s.node_counter, _)]).map Prod.fst =
      List.range' 1 (s.node_counter + 1 - 1)
    simp only [List.map_append, h.1, List.map_cons, List.map_nil]
    have h1 : s.node_counter + 1 - 1 = (s.node_counter - 1) + 1 := by omega
    rw [h1, List.range'_1_concat]
    have h2 : 1 + (s.node_counter - 1) = s.node_counter := by omega
    rw [h2]
  · intro p hp
    rcases List.mem_append.mp hp with hp | hp
    · exact h.2.2 p hp
    · simp only [List.mem_singleton] at hp
      rw [hp]

theorem addNode_inv {K : Type} (s : MeshState K) (coord : Coord) (xg zg : Nat)
    (h : Inv s) : Inv (addNode s coord xg zg).2 := by
  obtain ⟨-, hc, hn, hl, ht, he, -, -, -⟩ := addNode_fields s coord xg zg h.1
  refine ⟨hn, ?_⟩
  intro e hmem
  rw [hl, ht, he] at hmem
  obtain ⟨⟨hi1, hi2⟩, ⟨hj1, hj2⟩, hij⟩ := h.2 e hmem
  exact ⟨⟨hi1, by omega⟩, ⟨hj1, by omega⟩, hij⟩

theorem record_edge_nodes_fields {K : Type} (s : MeshState K) (tags : List Nat) :
    (record_edge_nodes s tags).node_counter = s.node_counter
    ∧ (record_edge_nodes s tags).node_spec = s.node_spec
    ∧ (record_edge_nodes s tags).long_ele = s.long_ele
    ∧ (record_edge_nodes s tags).trans_ele = s.trans_ele
    ∧ (record_edge_nodes s tags).edge_span_ele = s.edge_span_ele := by
  unfold record_edge_nodes
  exact ⟨rfl, rfl, rfl, rfl, rfl⟩

theorem record_edge_nodes_inv {K : Type} (s : MeshState K) (tags : List Nat)
    (h : Inv s) : Inv (record_edge_nodes s tags) := by
  obtain ⟨hc, hn, hl, ht, he⟩ := record_edge_nodes_fields s tags
  constructor
  · rw [NodesOk, hc, hn]
    exact h.1
  · intro e hmem
    rw [hl, ht, he] at hmem
    rw [EleOk, hc]
    exact h.2 e hmem

theorem geo_transform_tag_fields {K : Type} [DecidableEq K]
    (vkey : Coord → Coord → K) (s : MeshState K) (a b : Nat)
    (p : Nat × MeshState K) (h : geo_transform_tag_of_nodes vkey s a b = some p) :
    p.2.node_counter = s.node_counter ∧ p.2.node_spec = s.node_spec
    ∧ p.2.long_ele = s.long_ele ∧ p.2.trans_ele = s.trans_ele
    ∧ p.2.edge_span_ele = s.edge_span_ele
    ∧ p.2.element_counter = s.element_counter
    ∧ p.2.global_x_grid_count = s.global_x_grid_count
    ∧ p.2.global_edge_count = s.global_edge_count := by
  unfold geo_transform_tag_of_nodes at h
  cases hra : nodeFind? s a with
  | none => rw [hra] at h; exact Option.noConfusion h
  | some ra =>
    cases hrb : nodeFind? s b with
    | none => rw [hra, hrb] at h; exact Option.noConfusion h
    | some rb =>
      rw [hra, hrb] at h
      have h2 := Option.some.inj h
      rw [← h2]
      exact ⟨rfl, rfl, rfl, rfl, rfl, rfl, rfl, rfl⟩

theorem assign_transverse_members_fields {K : Type} [DecidableEq K]
    (vkey : Coord → Coord → K) (s : MeshState K) (a b : Nat) (s' : MeshState K)
    (h : assign_transverse_members vkey s a b = some s') :
    s'.node_counter = s.node_counter ∧ s'.node_spec = s.node_spec
    ∧ s'.long_ele = s.long_ele ∧ s'.edge_span_ele = s.edge_span_ele
    ∧ ∃ t, s'.trans_ele =
        s.trans_ele ++ [⟨s.element_counter, a, b, s.global_x_grid_count, t⟩] := by
  unfold assign_transverse_members at h
  cases hg : geo_transform_tag_of_nodes vkey s a b with
  | none => rw [hg] at h; exact Option.noConfusion h
  | some p =>
    rw [hg] at h
    obtain ⟨hc, hn, hl, ht, he, hec, hgx, hge⟩ := geo_transform_tag_fields vkey s a b p hg
    have h2 := Option.some.inj h
    rw [← h2]
    refine ⟨hc, hn, hl, he, ⟨p.1, ?_⟩⟩
    show p.2.trans_ele ++ [⟨p.2.element_counter, a, b, p.2.global_x_grid_count, p.1⟩] = _
    rw [ht, hec, hgx]

theorem assign_longitudinal_members_fields {K : Type} [DecidableEq K]
    (vkey : Coord → Coord → K) (s : MeshState K) (a b zg : Nat) (s' : MeshState K)
    (h : assign_longitudinal_members vkey s a b zg = some s') :
    s'.node_counter = s.node_counter ∧ s'.node_spec = s.node_spec
    ∧ s'.trans_ele = s.trans_ele ∧ s'.edge_span_ele = s.edge_span_ele
    ∧ ∃ t, s'.long_ele = s.long_ele ++ [⟨s.element_counter, a, b, zg, t⟩] := by
  unfold assign_longitudinal_members at h
  cases hg : geo_transform_tag_of_nodes vkey s a b with
  | none => rw [hg] at h; exact Option.noConfusion h
  | some p =>
    rw [hg] at h
    obtain ⟨hc, hn, hl, ht, he, hec, hgx, hge⟩ := geo_transform_tag_fields vkey s a b p hg
    have h2 := Option.some.inj h
    rw [← h2]
    refine ⟨hc, hn, ht, he, ⟨p.1, ?_⟩⟩
    show p.2.long_ele ++ [⟨p.2.element_counter, a, b, zg, p.1⟩] = _
    rw [hl, hec]

theorem assign_edge_trans_members_fields {K : Type} [DecidableEq K]
    (vkey : Coord → Coord → K) (s : MeshState K) (a b ec : Nat) (s' : MeshState K)
    (h : assign_edge_trans_members vkey s a b ec = some s') :
    s'.node_counter = s.node_counter ∧ s'.node_spec = s.node_spec
    ∧ s'.trans_ele = s.trans_ele ∧ s'.long_ele = s.long_ele
    ∧ ∃ t, s'.edge_span_ele = s.edge_span_ele ++ [⟨s.element_counter, a, b, ec, t⟩] := by
  unfold assign_edge_trans_members at h
  cases hg : geo_transform_tag_of_nodes vkey s a b with
  | none => rw [hg] at h; exact Option.noConfusion h
  | some p =>
    rw [hg] at h
    obtain ⟨hc, hn, hl, ht, he, hec, hgx, hge⟩ := geo_transform_tag_fields vkey s a b p hg
    have h2 := Option.some.inj h
    rw [← h2]
    refine ⟨hc, hn, ht, hl, ⟨p.1, ?_⟩⟩
    show p.2.edge_span_ele ++ [⟨p.2.element_counter, a, b, ec, p.1⟩] = _
    rw [he, hec]

/-- Invariant preservation for any of the three element-assignment
procedures, given valid distinct endpoints. -/
theorem assign_transverse_members_inv {K : Type} [DecidableEq K]
    (vkey : Coord → Coord → K) (s : MeshState K) (a b : Nat) (s' : MeshState K)
    (h : assign_transverse_members vkey s a b = some s') (hInv : Inv s)
    (hab : (1 ≤ a ∧ a < s.node_counter) ∧ (1 ≤ b ∧ b < s.node_counter) ∧ a ≠ b) :
    Inv s' ∧ s'.node_counter = s.node_counter ∧ s'.node_spec = s.node_spec := by
  obtain ⟨hc, hn, hl, he, t, ht⟩ := assign_transverse_members_fields vkey s a b s' h
  refine ⟨⟨?_, ?_⟩, hc, hn⟩
  · rw [NodesOk, hc, hn]
    exact hInv.1
  · intro e hmem
    rw [EleOk, hc]
    rw [hl, ht, he] at hmem
    rcases hmem with hm | hm | hm
    · exact hInv.2 e (Or.inl hm)
    · rcases List.mem_append.mp hm with hm | hm
      · exact hInv.2 e (Or.inr (Or.inl hm))
      · simp only [List.mem_singleton] at hm
        rw [hm]
        exact hab
    · exact hInv.2 e (Or.inr (Or.inr hm))

theorem assign_longitudinal_members_inv {K : Type} [DecidableEq K]
    (vkey : Coord → Coord → K) (s : MeshState K) (a b zg : Nat) (s' : MeshState K)
    (h : assign_longitudinal_members vkey s a b zg = some s') (hInv : Inv s)
    (hab : (1 ≤ a ∧ a < s.node_counter) ∧ (1 ≤ b ∧ b < s.node_counter) ∧ a ≠ b) :
    Inv s' ∧ s'.node_counter = s.node_counter ∧ s'.node_spec = s.node_spec := by
  obtain ⟨hc, hn, ht, he, t, hl⟩ := assign_longitudinal_members_fields vkey s a b zg s' h
  refine ⟨⟨?_, ?_⟩, hc, hn⟩
  · rw [NodesOk, hc, hn]
    exact hInv.1
  · intro e hmem
    rw [EleOk, hc]
    rw [hl, ht, he] at hmem
    rcases hmem with hm | hm | hm
    · rcases List.mem_append.mp hm with hm | hm
      · exact hInv.2 e (Or.inl hm)
      · simp only [List.mem_singleton] at hm
        rw [hm]
        exact hab
    · exact hInv.2 e (Or.inr (Or.inl hm))
    · exact hInv.2 e (Or.inr (Or.inr hm))

theorem assign_edge_trans_members_inv {K : Type} [DecidableEq K]
    (vkey : Coord → Coord → K) (s : MeshState K) (a b ec : Nat) (s' : MeshState K)
    (h : assign_edge_trans_members vkey s a b ec = some s') (hInv : Inv s)
    (hab : (1 ≤ a ∧ a < s.node_counter) ∧ (1 ≤ b ∧ b < s.node_counter) ∧ a ≠ b) :
    Inv s' ∧ s'.node_counter = s.node_counter ∧ s'.node_spec = s.node_spec := by
  obtain ⟨hc, hn, ht, hl, t, he⟩ := assign_edge_trans_members_fields vkey s a b ec s' h
  refine ⟨⟨?_, ?_⟩, hc, hn⟩
  · rw [NodesOk, hc, hn]
    exact hInv.1
  · intro e hmem
    rw [EleOk, hc]
    rw [hl, ht, he] at hmem
    rcases hmem with hm | hm | hm
    · exact hInv.2 e (Or.inl hm)
    · exact hInv.2 e (Or.inr (Or.inl hm))
    · rcases List.mem_append.mp hm with hm | hm
      · exact hInv.2 e (Or.inr (Or.inr hm))
      · simp only [List.mem_singleton] at hm
        rw [hm]
        exact hab

/-! ### Fold machinery for the loop invariants -/

theorem option_some_bind {A B : Type} (a : A) (f : A → Option B) :
    (some a >>= f) = f a := rfl

theorem foldlM_option_inv_mem {A B : Type} (f : B → A → Option B) (P : B → Prop)
    (l : List A)
    (hstep : ∀ b a b', a ∈ l → P b → f b a = some b' → P b') :
    ∀ b b', P b → l.foldlM f b = some b' → P b' := by
  induction l with
  | nil =>
    intro b b' hb h
    rw [List.foldlM_nil] at h
    exact (Option.some.inj h) ▸ hb
  | cons a l ih =>
    intro b b' hb h
    rw [List.foldlM_cons] at h
    cases hfa : f b a with
    | none =>
      rw [hfa] at h
      exact Option.noConfusion h
    | some b1 =>
      rw [hfa] at h
      rw [option_some_bind] at h
      exact ih (fun b2 a2 b3 ha2 => hstep b2 a2 b3 (List.mem_cons_of_mem a ha2))
        b1 b' (hstep b a b1 (List.mem_cons_self a l) hb hfa) h

theorem pairwise_lt_of_getElem? {l : List Nat} (h : l.Pairwise (· < ·))
    {i j a b : Nat} (ha : l[i]? = some a) (hb : l[j]? = some b) (hij : i < j) :
    a < b := by
  rw [List.getElem?_eq_some] at ha hb
  obtain ⟨hi, rfl⟩ := ha
  obtain ⟨hj, rfl⟩ := hb
  exact List.pairwise_iff_getElem.mp h i j hi hj hij

/-- The accumulator invariant of a node-placement column fold:
the state invariant, the assigned tags strictly increasing, every assigned
tag a valid key at least `c_lo`, and `c_lo` at most the counter. -/
def ColInv {K : Type} (c_lo : Nat) (acc : MeshState K × List Nat) : Prop :=
  Inv acc.1 ∧ acc.2.Pairwise (· < ·)
  ∧ (∀ t ∈ acc.2, c_lo ≤ t ∧ 1 ≤ t ∧ t < acc.1.node_counter)
  ∧ c_lo ≤ acc.1.node_counter

theorem colInv_after_addNode {K : Type} (c_lo : Nat) (s : MeshState K)
    (assigned : List Nat) (coord : Coord) (xg zg : Nat)
    (hI : ColInv c_lo (s, assigned)) :
    ColInv c_lo ((addNode s coord xg zg).2, assigned ++ [(addNode s coord xg zg).1]) := by
  obtain ⟨hInv, hPw, hB, hLo⟩ := hI
  dsimp only at hInv hPw hB hLo
  unfold ColInv
  dsimp only
  obtain ⟨h1, h2, hn, -, -, -, -, -, -⟩ := addNode_fields s coord xg zg hInv.1
  have hone := hInv.1.2.1
  refine ⟨addNode_inv s coord xg zg hInv, ?_, ?_, by omega⟩
  · rw [List.pairwise_append]
    refine ⟨hPw, List.pairwise_singleton _ _, ?_⟩
    intro x hx y hy
    simp only [List.mem_singleton] at hy
    rw [hy, h1]
    exact (hB x hx).2.2
  · intro t ht
    rcases List.mem_append.mp ht with ht | ht
    · obtain ⟨hlo, ho, hu⟩ := hB t ht
      exact ⟨hlo, ho, by omega⟩
    · simp only [List.mem_singleton] at ht
      rw [ht, h1]
      exact ⟨hLo, by omega, by omega⟩

theorem linked_pair_ok {K : Type} (s1 : MeshState K) (assigned : List Nat) (c_lo : Nat)
    (hP : assigned.Pairwise (· < ·))
    (hB : ∀ t ∈ assigned, c_lo ≤ t ∧ 1 ≤ t ∧ t < s1.node_counter)
    {i j a b : Nat} (ha : assigned[i]? = some a) (hb : assigned[j]? = some b)
    (hij : i < j) :
    (1 ≤ a ∧ a < s1.node_counter) ∧ (1 ≤ b ∧ b < s1.node_counter) ∧ a ≠ b := by
  have hma : a ∈ assigned := mem_of_getElem?_eq_some ha
  have hmb : b ∈ assigned := mem_of_getElem?_eq_some hb
  have hlt : a < b := pairwise_lt_of_getElem? hP ha hb hij
  exact ⟨⟨(hB a hma).2.1, (hB a hma).2.2⟩, ⟨(hB b hmb).2.1, (hB b hmb).2.2⟩,
    Nat.ne_of_lt hlt⟩

theorem fixed_sweep_z_step_inv {K : Type} [DecidableEq K] (vkey : Coord → Coord → K)
    (zfun : ℚ → ℚ) (x_count : Nat) (x_inc : ℚ) (c_lo : Nat)
    (acc acc' : MeshState K × List Nat) (zc : Nat × Coord)
    (h : fixed_sweep_z_step vkey zfun x_count x_inc acc zc = some acc')
    (hI : ColInv c_lo acc) : ColInv c_lo acc' := by
  unfold fixed_sweep_z_step at h
  have hAdd := colInv_after_addNode c_lo acc.1 acc.2
    (zc.2.1 + x_inc, zc.2.2.1, zc.2.2.2 + zfun x_inc) x_count zc.1 hI
  set p := addNode acc.1 (zc.2.1 + x_inc, zc.2.2.1, zc.2.2.2 + zfun x_inc) x_count zc.1 with hp
  by_cases hz : zc.1 > 0
  · rw [if_pos hz] at h
    cases hga : (acc.2 ++ [p.1])[zc.1 - 1]? with
    | none => rw [hga] at h; exact Option.noConfusion h
    | some a =>
      rw [hga, option_some_bind] at h
      cases hgb : (acc.2 ++ [p.1])[zc.1]? with
      | none => rw [hgb] at h; exact Option.noConfusion h
      | some b =>
        rw [hgb, option_some_bind] at h
        cases hassign : assign_transverse_members vkey p.2 a b with
        | none => rw [hassign] at h; exact Option.noConfusion h
        | some s2 =>
          rw [hassign, option_some_bind] at h
          have h2 := Option.some.inj h
          have hpair := linked_pair_ok p.2 (acc.2 ++ [p.1]) c_lo hAdd.2.1 hAdd.2.2.1
            hga hgb (by omega)
          obtain ⟨hInv2, hc2, hn2⟩ :=
            assign_transverse_members_inv vkey p.2 a b s2 hassign hAdd.1 hpair
          rw [← h2]
          refine ⟨hInv2, hAdd.2.1, ?_, by rw [hc2]; exact hAdd.2.2.2⟩
          intro t ht
          rw [hc2]
          exact hAdd.2.2.1 t ht
  · rw [if_neg hz] at h
    have h2 := Option.some.inj h
    rw [← h2]
    exact hAdd

theorem ortho_place_step_inv {K : Type} [DecidableEq K] (vkey : Coord → Coord → K)
    (x_inc z_inc : ℚ) (zrec : List Nat) (c_lo : Nat)
    (acc acc' : MeshState K × List Nat) (zc : Nat × Coord)
    (h : ortho_place_step vkey x_inc z_inc zrec acc zc = some acc')
    (hI : ColInv c_lo acc) : ColInv c_lo acc' := by
  unfold ortho_place_step at h
  dsimp only at h
  cases hzg : zrec[zc.1]? with
  | none => rw [hzg] at h; exact Option.noConfusion h
  | some zg =>
    rw [hzg, option_some_bind] at h
    have hAdd := colInv_after_addNode c_lo acc.1 acc.2
      (zc.2.1 + x_inc, zc.2.2.1, zc.2.2.2 + z_inc) acc.1.global_x_grid_count zg hI
    set p := addNode acc.1 (zc.2.1 + x_inc, zc.2.2.1, zc.2.2.2 + z_inc)
      acc.1.global_x_grid_count zg with hp
    by_cases hz : zc.1 > 0
    · rw [if_pos hz] at h
      cases hga : (acc.2 ++ [p.1])[zc.1 - 1]? with
      | none => rw [hga] at h; exact Option.noConfusion h
      | some a =>
        rw [hga, option_some_bind] at h
        cases hgb : (acc.2 ++ [p.1])[zc.1]? with
        | none => rw [hgb] at h; exact Option.noConfusion h
        | some b =>
          rw [hgb, option_some_bind] at h
          cases hassign : assign_transverse_members vkey p.2 a b with
          | none => rw [hassign] at h; exact Option.noConfusion h
          | some s2 =>
            rw [hassign, option_some_bind] at h
            have h2 := Option.some.inj h
            have hpair := linked_pair_ok p.2 (acc.2 ++ [p.1]) c_lo hAdd.2.1 hAdd.2.2.1
              hga hgb (by omega)
            obtain ⟨hInv2, hc2, hn2⟩ :=
              assign_transverse_members_inv vkey p.2 a b s2 hassign hAdd.1 hpair
            rw [← h2]
            refine ⟨hInv2, hAdd.2.1, ?_, by rw [hc2]; exact hAdd.2.2.2⟩
            intro t ht
            rw [hc2]
            exact hAdd.2.2.1 t ht
    · rw [if_neg hz] at h
      have h2 := Option.some.inj h
      rw [← h2]
      exact hAdd

theorem ortho_uniform_place_step_inv {K : Type} [DecidableEq K]
    (vkey : Coord → Coord → K) (x_inc z_inc : ℚ) (c_lo : Nat)
    (acc acc' : MeshState K × List Nat) (zc : Nat × Coord)
    (h : ortho_uniform_place_step vkey x_inc z_inc acc zc = some acc')
    (hI : ColInv c_lo acc) : ColInv c_lo acc' := by
  unfold ortho_uniform_place_step at h
  dsimp only at h
  have hAdd := colInv_after_addNode c_lo acc.1 acc.2
    (zc.2.1 + x_inc, zc.2.2.1, zc.2.2.2 + z_inc) acc.1.global_x_grid_count zc.1 hI
  set p := addNode acc.1 (zc.2.1 + x_inc, zc.2.2.1, zc.2.2.2 + z_inc)
    acc.1.global_x_grid_count zc.1 with hp
  by_cases hz : zc.1 > 0
  · rw [if_pos hz] at h
    cases hga : (acc.2 ++ [p.1])[zc.1 - 1]? with
    | none => rw [hga] at h; exact Option.noConfusion h
    | some a =>
      rw [hga, option_some_bind] at h
      cases hgb : (acc.2 ++ [p.1])[zc.1]? with
      | none => rw [hgb] at h; exact Option.noConfusion h
      | some b =>
        rw [hgb, option_some_bind] at h
        cases hassign : assign_transverse_members vkey p.2 a b with
        | none => rw [hassign] at h; exact Option.noConfusion h
        | some s2 =>
          rw [hassign, option_some_bind] at h
          have h2 := Option.some.inj h
          have hpair := linked_pair_ok p.2 (acc.2 ++ [p.1]) c_lo hAdd.2.1 hAdd.2.2.1
            hga hgb (by omega)
          obtain ⟨hInv2, hc2, hn2⟩ :=
            assign_transverse_members_inv vkey p.2 a b s2 hassign hAdd.1 hpair
          rw [← h2]
          refine ⟨hInv2, hAdd.2.1, ?_, by rw [hc2]; exact hAdd.2.2.2⟩
          intro t ht
          rw [hc2]
          exact hAdd.2.2.1 t ht
  · rw [if_neg hz] at h
    have h2 := Option.some.inj h
    rw [← h2]
    exact hAdd

theorem ortho_edge_simple_step_inv {K : Type} [DecidableEq K]
    (vkey : Coord → Coord → K) (x_inc z_inc : ℚ) (c_lo : Nat)
    (acc acc' : MeshState K × List Nat) (zc : Nat × Coord)
    (h : ortho_edge_simple_step vkey x_inc z_inc acc zc = some acc')
    (hI : ColInv c_lo acc) : ColInv c_lo acc' := by
  unfold ortho_edge_simple_step at h
  dsimp only at h
  have hAdd := colInv_after_addNode c_lo acc.1 acc.2
    (zc.2.1 + x_inc, zc.2.2.1, zc.2.2.2 + z_inc) acc.1.global_x_grid_count zc.1 hI
  set p := addNode acc.1 (zc.2.1 + x_inc, zc.2.2.1, zc.2.2.2 + z_inc)
    acc.1.global_x_grid_count zc.1 with hp
  by_cases hz : zc.1 > 0
  · rw [if_pos hz] at h
    by_cases hlen : 1 ≤ (acc.2 ++ [p.1]).length
    · rw [if_pos hlen] at h
      cases hga : (acc.2 ++ [p.1])[zc.1 - 1]? with
      | none => rw [hga] at h; exact Option.noConfusion h
      | some a =>
        rw [hga, option_some_bind] at h
        cases hgb : (acc.2 ++ [p.1])[zc.1]? with
        | none => rw [hgb] at h; exact Option.noConfusion h
        | some b =>
          rw [hgb, option_some_bind] at h
          cases hassign : assign_edge_trans_members vkey p.2 a b p.2.global_edge_count with
          | none => rw [hassign] at h; exact Option.noConfusion h
          | some s2 =>
            rw [hassign, option_some_bind] at h
            have h2 := Option.some.inj h
            have hpair := linked_pair_ok p.2 (acc.2 ++ [p.1]) c_lo hAdd.2.1 hAdd.2.2.1
              hga hgb (by omega)
            obtain ⟨hInv2, hc2, hn2⟩ :=
              assign_edge_trans_members_inv vkey p.2 a b p.2.global_edge_count s2
                hassign hAdd.1 hpair
            rw [← h2]
            obtain ⟨hrc, hrn, hrl, hrt, hre⟩ := record_edge_nodes_fields s2 [a, b]
            refine ⟨record_edge_nodes_inv s2 [a, b] hInv2, hAdd.2.1, ?_, ?_⟩
            · intro t ht
              rw [hrc, hc2]
              exact hAdd.2.2.1 t ht
            · rw [hrc, hc2]
              exact hAdd.2.2.2
    · rw [if_neg hlen] at h
      have h2 := Option.some.inj h
      rw [← h2]
      exact hAdd
  · rw [if_neg hz] at h
    have h2 := Option.some.inj h
    rw [← h2]
    exact hAdd

theorem mem_of_getLast?_eq_some {A : Type} :
    ∀ {l : List A} {a : A}, l.getLast? = some a → a ∈ l
  | [], a, h => by simp [List.getLast?] at h
  | [b], a, h => by
    simp only [List.getLast?, Option.some_inj] at h
    rw [← h]
    exact List.mem_singleton_self b
  | b :: c :: l, a, h => by
    rw [List.getLast?_cons_cons] at h
    exact List.mem_cons_of_mem b (mem_of_getLast?_eq_some h)

theorem long_join_scan_some_mem {K : Type} (s : MeshState K) (pre : Nat) :
    ∀ (l : List Nat) (cur zg : Nat),
      long_join_scan s pre l = some (some (cur, zg)) → cur ∈ l := by
  intro l
  induction l with
  | nil =>
    intro cur zg h
    rw [long_join_scan] at h
    exact Option.noConfusion (Option.some.inj h)
  | cons c rest ih =>
    intro cur zg h
    rw [long_join_scan] at h
    cases hc : nodeFind? s c with
    | none => rw [hc] at h; exact Option.noConfusion h
    | some cr =>
      rw [hc, option_some_bind] at h
      cases hp : nodeFind? s pre with
      | none => rw [hp] at h; exact Option.noConfusion h
      | some pr =>
        rw [hp, option_some_bind] at h
        by_cases hz : cr.z_group = pr.z_group
        · rw [if_pos hz] at h
          have h2 := Option.some.inj (Option.some.inj h)
          have : c = cur := congrArg Prod.fst h2
          rw [← this]
          exact List.mem_cons_self c rest
        · rw [if_neg hz] at h
          exact List.mem_cons_of_mem c (ih cur zg h)

theorem link_longitudinal_inv {K : Type} [DecidableEq K] (vkey : Coord → Coord → K)
    (assigned : List Nat) (s0 : MeshState K) (previous : List Nat)
    (s' : MeshState K) (h : link_longitudinal vkey assigned s0 previous = some s')
    (hInv : Inv s0)
    (hprev : ∀ p ∈ previous, 1 ≤ p ∧ p < s0.node_counter)
    (hass : ∀ c ∈ assigned, 1 ≤ c ∧ c < s0.node_counter)
    (hsep : ∀ p ∈ previous, ∀ c ∈ assigned, p ≠ c) :
    Inv s' ∧ s'.node_counter = s0.node_counter ∧ s'.node_spec = s0.node_spec := by
  unfold link_longitudinal at h
  refine foldlM_option_inv_mem _
    (fun b => Inv b ∧ b.node_counter = s0.node_counter ∧ b.node_spec = s0.node_spec)
    previous ?_ s0 s' ⟨hInv, rfl, rfl⟩ h
  intro b pre b' hpre hb hstep
  cases hscan : long_join_scan b pre assigned with
  | none => rw [hscan] at hstep; exact Option.noConfusion hstep
  | some m =>
    rw [hscan, option_some_bind] at hstep
    cases m with
    | none =>
      have h2 := Option.some.inj hstep
      rw [← h2]
      exact hb
    | some pc =>
      have hcur : pc.1 ∈ assigned :=
        long_join_scan_some_mem b pre assigned pc.1 pc.2 (by rw [hscan])
      obtain ⟨hInv2, hc2, hn2⟩ :=
        assign_longitudinal_members_inv vkey b pre pc.1 pc.2 b' hstep hb.1
          ⟨by rw [hb.2.1]; exact hprev pre hpre,
           by rw [hb.2.1]; exact hass pc.1 hcur,
           hsep pre hpre pc.1 hcur⟩
      exact ⟨hInv2, by rw [hc2, hb.2.1], by rw [hn2, hb.2.2]⟩

/-- Column-run invariant for the fixed-sweep inner loop. -/
theorem fixed_sweep_column_inv {K : Type} [DecidableEq K] (vkey : Coord → Coord → K)
    (zfun : ℚ → ℚ) (x_count : Nat) (x_inc : ℚ) (sweeping_nodes : List Coord)
    (s : MeshState K) (q : MeshState K × List Nat)
    (h : fixed_sweep_column vkey zfun x_count x_inc sweeping_nodes s = some q)
    (hInv : Inv s) : ColInv s.node_counter q := by
  unfold fixed_sweep_column at h
  refine foldlM_option_inv_mem _ (ColInv s.node_counter) _ ?_ (s, []) q
    ⟨hInv, List.Pairwise.nil, by simp, Nat.le_refl _⟩ h
  intro b a b' _ hb hstep
  exact fixed_sweep_z_step_inv vkey zfun x_count x_inc s.node_counter b b' a hstep hb

/-- Station-level invariant for the outer fixed-sweep loop:
the state invariant plus valid bounds for `previous_node_tag`. -/
def StInv {K : Type} (acc : MeshState K × List Nat) : Prop :=
  Inv acc.1 ∧ ∀ t ∈ acc.2, 1 ≤ t ∧ t < acc.1.node_counter

theorem fixed_sweep_station_inv {K : Type} [DecidableEq K] (vkey : Coord → Coord → K)
    (zfun : ℚ → ℚ) (sweeping_nodes : List Coord) (n_nox : Nat)
    (acc acc' : MeshState K × List Nat) (xc : Nat × ℚ)
    (h : fixed_sweep_station vkey zfun sweeping_nodes n_nox acc xc = some acc')
    (hI : StInv acc) : StInv acc' := by
  obtain ⟨hInv, hprev⟩ := hI
  unfold fixed_sweep_station at h
  dsimp only at h
  cases hq : fixed_sweep_column vkey zfun xc.1 xc.2 sweeping_nodes acc.1 with
  | none => rw [hq] at h; exact Option.noConfusion h
  | some q =>
    rw [hq, option_some_bind] at h
    obtain ⟨hqInv, hqPw, hqB, hqLe⟩ := fixed_sweep_column_inv vkey zfun xc.1 xc.2
      sweeping_nodes acc.1 q hq hInv
    by_cases hx0 : xc.1 = 0
    · rw [if_pos hx0] at h
      have h2 := Option.some.inj h
      rw [← h2]
      obtain ⟨hrc, hrn, -, -, -⟩ := record_edge_nodes_fields q.1 q.2
      refine ⟨record_edge_nodes_inv q.1 q.2 hqInv, ?_⟩
      intro t ht
      show 1 ≤ t ∧ t < (record_edge_nodes q.1 q.2).node_counter
      rw [hrc]
      exact ⟨(hqB t ht).2.1, (hqB t ht).2.2⟩
    · rw [if_neg hx0] at h
      cases hlink : link_longitudinal vkey q.2 q.1 acc.2 with
      | none => rw [hlink] at h; exact Option.noConfusion h
      | some s2 =>
        rw [hlink, option_some_bind] at h
        obtain ⟨hInv2, hc2, -⟩ := link_longitudinal_inv vkey q.2 q.1 acc.2 s2 hlink
          hqInv
          (fun p hp => ⟨(hprev p hp).1, by have := (hprev p hp).2; omega⟩)
          (fun c hc => ⟨(hqB c hc).2.1, (hqB c hc).2.2⟩)
          (fun p hp c hc => by
            have h1 := (hprev p hp).2
            have h2 := (hqB c hc).1
            omega)
        by_cases hxl : xc.1 = n_nox - 1
        · rw [if_pos hxl] at h
          have h2 := Option.some.inj h
          rw [← h2]
          obtain ⟨hrc, -, -, -, -⟩ := record_edge_nodes_fields s2 q.2
          refine ⟨record_edge_nodes_inv s2 q.2 hInv2, ?_⟩
          intro t ht
          show 1 ≤ t ∧ t < (record_edge_nodes s2 q.2).node_counter
          rw [hrc, hc2]
          exact ⟨(hqB t ht).2.1, (hqB t ht).2.2⟩
        · rw [if_neg hxl] at h
          have h2 := Option.some.inj h
          rw [← h2]
          refine ⟨hInv2, ?_⟩
          intro t ht
          rw [hc2]
          exact ⟨(hqB t ht).2.1, (hqB t ht).2.2⟩

/-- Whole-run invariant for the fixed-sweep mesher. -/
theorem fixed_sweep_node_meshing_inv {K : Type} [DecidableEq K]
    (vkey : Coord → Coord → K) (zfun : ℚ → ℚ) (nox : List ℚ)
    (sweeping_nodes : List Coord) (s s' : MeshState K)
    (h : fixed_sweep_node_meshing vkey zfun nox sweeping_nodes s = some s')
    (hInv : Inv s) : Inv s' := by
  unfold fixed_sweep_node_meshing at h
  cases hr : (nox.enum).foldlM
      (fixed_sweep_station vkey zfun sweeping_nodes nox.length) (s, []) with
  | none => rw [hr] at h; exact Option.noConfusion h
  | some r =>
    rw [hr, option_some_bind] at h
    have hSt : StInv r := by
      refine foldlM_option_inv_mem _ StInv _ ?_ (s, []) r ⟨hInv, by simp⟩ hr
      intro b a b' _ hb hstep
      exact fixed_sweep_station_inv vkey zfun sweeping_nodes nox.length b b' a hstep hb
    have h2 := Option.some.inj h
    rw [← h2]
    exact hSt.1

/-- Phase-level invariant for the orthogonal mesher: the state invariant
plus valid bounds for the three carried node lists. -/
def PhInv {K : Type} (ps : OrthoPhaseState K) : Prop :=
  Inv ps.s
  ∧ (∀ t ∈ ps.previous_node_tag, 1 ≤ t ∧ t < ps.s.node_counter)
  ∧ (∀ t ∈ ps.first_connecting_region_nodes, 1 ≤ t ∧ t < ps.s.node_counter)
  ∧ (∀ t ∈ ps.end_connecting_region_nodes, 1 ≤ t ∧ t < ps.s.node_counter)

theorem ortho_column_inv {K : Type} [DecidableEq K] (vkey : Coord → Coord → K)
    (x_inc z_inc : ℚ) (zrec : List Nat) (nodes : List Coord)
    (s : MeshState K) (q : MeshState K × List Nat)
    (h : (nodes.enum).foldlM (ortho_place_step vkey x_inc z_inc zrec) (s, []) = some q)
    (hInv : Inv s) : ColInv s.node_counter q := by
  refine foldlM_option_inv_mem _ (ColInv s.node_counter) _ ?_ (s, []) q
    ⟨hInv, List.Pairwise.nil, by simp, Nat.le_refl _⟩ h
  intro b a b' _ hb hstep
  exact ortho_place_step_inv vkey x_inc z_inc zrec s.node_counter b b' a hstep hb

theorem ortho_simple_column_inv {K : Type} [DecidableEq K] (vkey : Coord → Coord → K)
    (x_inc z_inc : ℚ) (nodes : List Coord)
    (s : MeshState K) (q : MeshState K × List Nat)
    (h : (nodes.enum).foldlM (ortho_edge_simple_step vkey x_inc z_inc) (s, []) = some q)
    (hInv : Inv s) : ColInv s.node_counter q := by
  refine foldlM_option_inv_mem _ (ColInv s.node_counter) _ ?_ (s, []) q
    ⟨hInv, List.Pairwise.nil, by simp, Nat.le_refl _⟩ h
  intro b a b' _ hb hstep
  exact ortho_edge_simple_step_inv vkey x_inc z_inc s.node_counter b b' a hstep hb

theorem ortho_start_simple_inv {K : Type} [DecidableEq K] (vkey : Coord → Coord → K)
    (P : OrthoParams) (ps ps' : OrthoPhaseState K)
    (h : ortho_start_simple vkey P ps = some ps') (hI : PhInv ps) : PhInv ps' := by
  obtain ⟨hInv, hprev, hfirst, hend⟩ := hI
  unfold ortho_start_simple at h
  dsimp only at h
  cases hq : (P.start_node_list.enum).foldlM
      (ortho_edge_simple_step vkey P.mesh_origin.1 P.mesh_origin.2.2) (ps.s, []) with
  | none => rw [hq] at h; exact Option.noConfusion h
  | some q =>
    rw [hq, option_some_bind] at h
    obtain ⟨hqInv, -, hqB, hqLe⟩ :=
      ortho_simple_column_inv vkey P.mesh_origin.1 P.mesh_origin.2.2
        P.start_node_list ps.s q hq hInv
    have h2 := Option.some.inj h
    rw [← h2]
    refine ⟨hqInv, ?_, ?_, ?_⟩
    · intro t ht
      have := hprev t ht
      show 1 ≤ t ∧ t < q.1.node_counter
      omega
    · intro t ht
      show 1 ≤ t ∧ t < q.1.node_counter
      unfold connecting_capture at ht
      by_cases hcap : 1 ≤ P.noz.length ∧ P.noz.length ≤ q.2.length
      · rw [if_pos hcap] at ht
        exact ⟨(hqB t ht).2.1, (hqB t ht).2.2⟩
      · rw [if_neg hcap] at ht
        have := hfirst t ht
        omega
    · intro t ht
      have := hend t ht
      show 1 ≤ t ∧ t < q.1.node_counter
      omega

theorem ortho_end_simple_inv {K : Type} [DecidableEq K] (vkey : Coord → Coord → K)
    (P : OrthoParams) (ps ps' : OrthoPhaseState K)
    (h : ortho_end_simple vkey P ps = some ps') (hI : PhInv ps) : PhInv ps' := by
  obtain ⟨hInv, hprev, hfirst, hend⟩ := hI
  unfold ortho_end_simple at h
  dsimp only at h
  cases hq : (P.end_node_list.enum).foldlM
      (ortho_edge_simple_step vkey 0 0) (ps.s, []) with
  | none => rw [hq] at h; exact Option.noConfusion h
  | some q =>
    rw [hq, option_some_bind] at h
    obtain ⟨hqInv, -, hqB, hqLe⟩ :=
      ortho_simple_column_inv vkey 0 0 P.end_node_list ps.s q hq hInv
    have h2 := Option.some.inj h
    rw [← h2]
    refine ⟨hqInv, ?_, ?_, ?_⟩
    · intro t ht
      have := hprev t ht
      show 1 ≤ t ∧ t < q.1.node_counter
      omega
    · intro t ht
      have := hfirst t ht
      show 1 ≤ t ∧ t < q.1.node_counter
      omega
    · intro t ht
      show 1 ≤ t ∧ t < q.1.node_counter
      unfold connecting_capture at ht
      by_cases hcap : 1 ≤ P.noz.length ∧ P.noz.length ≤ q.2.length
      · rw [if_pos hcap] at ht
        exact ⟨(hqB t ht).2.1, (hqB t ht).2.2⟩
      · rw [if_neg hcap] at ht
        have := hend t ht
        omega

/-- The skewed-edge-member sub-block shared by both search branches: link
two existing distinct tags as an edge-span member and record them. -/
theorem edge_pair_block_inv {K : Type} [DecidableEq K] (vkey : Coord → Coord → K)
    (s1 s2 : MeshState K) (a b : Nat)
    (hassign : assign_edge_trans_members vkey s1 a b s1.global_edge_count = some s2)
    (hInv : Inv s1) (hab : (1 ≤ a ∧ a < s1.node_counter) ∧
      (1 ≤ b ∧ b < s1.node_counter) ∧ a ≠ b) :
    Inv (record_edge_nodes s2 [a, b])
    ∧ (record_edge_nodes s2 [a, b]).node_counter = s1.node_counter := by
  obtain ⟨hInv2, hc2, -⟩ :=
    assign_edge_trans_members_inv vkey s1 a b s1.global_edge_count s2 hassign hInv hab
  obtain ⟨hrc, -, -, -, -⟩ := record_edge_nodes_fields s2 [a, b]
  exact ⟨record_edge_nodes_inv s2 [a, b] hInv2, by rw [hrc, hc2]⟩

theorem option_bind_eq_some {A B : Type} (x : Option A) (f : A → Option B) (b : B) :
    (x >>= f) = some b ↔ ∃ a, x = some a ∧ f a = some b := Option.bind_eq_some

theorem ortho_start_join_inv {K : Type} [DecidableEq K] (vkey : Coord → Coord → K)
    (P : OrthoParams) (z_count c0 : Nat) (previous : List Nat)
    (q sp : MeshState K × List Nat)
    (h : ortho_start_join vkey P z_count previous q = some sp)
    (hqInv : Inv q.1)
    (hqB : ∀ t ∈ q.2, c0 ≤ t ∧ 1 ≤ t ∧ t < q.1.node_counter)
    (hprev : ∀ p ∈ previous, 1 ≤ p ∧ p < c0)
    (hc0 : c0 ≤ q.1.node_counter) :
    Inv sp.1 ∧ sp.1.node_counter = q.1.node_counter ∧ sp.2 = q.2 := by
  unfold ortho_start_join at h
  by_cases hz0 : z_count = 0
  · rw [if_pos hz0] at h
    have h3 := Option.some.inj h
    rw [← h3]
    exact ⟨hqInv, rfl, rfl⟩
  · rw [if_neg hz0] at h
    rw [option_bind_eq_some] at h
    obtain ⟨s2, hlink, h⟩ := h
    obtain ⟨hInv2, hc2, -⟩ := link_longitudinal_inv vkey q.2 q.1 previous s2 hlink hqInv
      (fun p hp => ⟨(hprev p hp).1, by have := (hprev p hp).2; omega⟩)
      (fun c hc => ⟨(hqB c hc).2.1, (hqB c hc).2.2⟩)
      (fun p hp c hc => by
        have h4 := (hprev p hp).2
        have h5 := (hqB c hc).1
        omega)
    by_cases hlen : 1 ≤ q.2.length
    · rw [if_pos hlen] at h
      by_cases hgt : 90 + P.skew_1 + P.zeta > 90
      · rw [if_pos hgt] at h
        rw [option_bind_eq_some] at h
        obtain ⟨a, hga, h⟩ := h
        rw [option_bind_eq_some] at h
        obtain ⟨b, hgb, h⟩ := h
        rw [option_bind_eq_some] at h
        obtain ⟨s4, hassign, h⟩ := h
        have h5 := Option.some.inj h
        have hma : a ∈ previous := mem_of_getElem?_eq_some hga
        have hmb : b ∈ q.2 := mem_of_getElem?_eq_some hgb
        have hpair : (1 ≤ a ∧ a < s2.node_counter) ∧
            (1 ≤ b ∧ b < s2.node_counter) ∧ a ≠ b := by
          have h6 := hprev a hma
          have h7 := hqB b hmb
          rw [hc2]
          exact ⟨⟨h6.1, by omega⟩, ⟨h7.2.1, h7.2.2⟩, by omega⟩
        obtain ⟨hInv4, hc4⟩ := edge_pair_block_inv vkey s2 s4 a b hassign hInv2 hpair
        rw [← h5]
        refine ⟨hInv4, ?_, rfl⟩
        show (record_edge_nodes s4 [a, b]).node_counter = q.1.node_counter
        rw [hc4, hc2]
      · rw [if_neg hgt] at h
        by_cases hlt : 90 + P.skew_1 + P.zeta < 90
        · rw [if_pos hlt] at h
          rw [option_bind_eq_some] at h
          obtain ⟨a, hga, h⟩ := h
          rw [option_bind_eq_some] at h
          obtain ⟨b, hgb, h⟩ := h
          rw [option_bind_eq_some] at h
          obtain ⟨s4, hassign, h⟩ := h
          have h5 := Option.some.inj h
          have hma : a ∈ previous := mem_of_getLast?_eq_some hga
          have hmb : b ∈ q.2 := mem_of_getLast?_eq_some hgb
          have hpair : (1 ≤ a ∧ a < s2.node_counter) ∧
              (1 ≤ b ∧ b < s2.node_counter) ∧ a ≠ b := by
            have h6 := hprev a hma
            have h7 := hqB b hmb
            rw [hc2]
            exact ⟨⟨h6.1, by omega⟩, ⟨h7.2.1, h7.2.2⟩, by omega⟩
          obtain ⟨hInv4, hc4⟩ := edge_pair_block_inv vkey s2 s4 a b hassign hInv2 hpair
          rw [← h5]
          refine ⟨hInv4, ?_, rfl⟩
          show (record_edge_nodes s4 [a, b]).node_counter = q.1.node_counter
          rw [hc4, hc2]
        · rw [if_neg hlt] at h
          have h5 := Option.some.inj h
          rw [← h5]
          exact ⟨hInv2, hc2, rfl⟩
    · rw [if_neg hlen] at h
      have h5 := Option.some.inj h
      rw [← h5]
      exact ⟨hInv2, hc2, rfl⟩

theorem ortho_end_join_inv {K : Type} [DecidableEq K] (vkey : Coord → Coord → K)
    (P : OrthoParams) (z_count c0 : Nat) (previous : List Nat)
    (q sp : MeshState K × List Nat)
    (h : ortho_end_join vkey P z_count previous q = some sp)
    (hqInv : Inv q.1)
    (hqB : ∀ t ∈ q.2, c0 ≤ t ∧ 1 ≤ t ∧ t < q.1.node_counter)
    (hprev : ∀ p ∈ previous, 1 ≤ p ∧ p < c0)
    (hc0 : c0 ≤ q.1.node_counter) :
    Inv sp.1 ∧ sp.1.node_counter = q.1.node_counter ∧ sp.2 = q.2 := by
  unfold ortho_end_join at h
  by_cases hz0 : z_count = 0
  · rw [if_pos hz0] at h
    have h3 := Option.some.inj h
    rw [← h3]
    exact ⟨hqInv, rfl, rfl⟩
  · rw [if_neg hz0] at h
    rw [option_bind_eq_some] at h
    obtain ⟨s2, hlink, h⟩ := h
    obtain ⟨hInv2, hc2, -⟩ := link_longitudinal_inv vkey q.2 q.1 previous s2 hlink hqInv
      (fun p hp => ⟨(hprev p hp).1, by have := (hprev p hp).2; omega⟩)
      (fun c hc => ⟨(hqB c hc).2.1, (hqB c hc).2.2⟩)
      (fun p hp c hc => by
        have h4 := (hprev p hp).2
        have h5 := (hqB c hc).1
        omega)
    by_cases hlen : 1 ≤ q.2.length
    · rw [if_pos hlen] at h
      by_cases hgt : 90 + P.skew_2 + P.zeta > 90
      · rw [if_pos hgt] at h
        rw [option_bind_eq_some] at h
        obtain ⟨a, hga, h⟩ := h
        rw [option_bind_eq_some] at h
        obtain ⟨b, hgb, h⟩ := h
        rw [option_bind_eq_some] at h
        obtain ⟨s4, hassign, h⟩ := h
        have h5 := Option.some.inj h
        have hma : a ∈ previous := mem_of_getLast?_eq_some hga
        have hmb : b ∈ q.2 := mem_of_getLast?_eq_some hgb
        have hpair : (1 ≤ a ∧ a < s2.node_counter) ∧
            (1 ≤ b ∧ b < s2.node_counter) ∧ a ≠ b := by
          have h6 := hprev a hma
          have h7 := hqB b hmb
          rw [hc2]
          exact ⟨⟨h6.1, by omega⟩, ⟨h7.2.1, h7.2.2⟩, by omega⟩
        obtain ⟨hInv4, hc4⟩ := edge_pair_block_inv vkey s2 s4 a b hassign hInv2 hpair
        rw [← h5]
        refine ⟨hInv4, ?_, rfl⟩
        show (record_edge_nodes s4 [a, b]).node_counter = q.1.node_counter
        rw [hc4, hc2]
      · rw [if_neg hgt] at h
        by_cases hlt : 90 + P.skew_2 + P.zeta < 90
        · rw [if_pos hlt] at h
          rw [option_bind_eq_some] at h
          obtain ⟨a, hga, h⟩ := h
          rw [option_bind_eq_some] at h
          obtain ⟨b, hgb, h⟩ := h
          rw [option_bind_eq_some] at h
          obtain ⟨s4, hassign, h⟩ := h
          have h5 := Option.some.inj h
          have hma : a ∈ previous := mem_of_getElem?_eq_some hga
          have hmb : b ∈ q.2 := mem_of_getElem?_eq_some hgb
          have hpair : (1 ≤ a ∧ a < s2.node_counter) ∧
              (1 ≤ b ∧ b < s2.node_counter) ∧ a ≠ b := by
            have h6 := hprev a hma
            have h7 := hqB b hmb
            rw [hc2]
            exact ⟨⟨h6.1, by omega⟩, ⟨h7.2.1, h7.2.2⟩, by omega⟩
          obtain ⟨hInv4, hc4⟩ := edge_pair_block_inv vkey s2 s4 a b hassign hInv2 hpair
          rw [← h5]
          refine ⟨hInv4, ?_, rfl⟩
          show (record_edge_nodes s4 [a, b]).node_counter = q.1.node_counter
          rw [hc4, hc2]
        · rw [if_neg hlt] at h
          have h5 := Option.some.inj h
          rw [← h5]
          exact ⟨hInv2, hc2, rfl⟩
    · rw [if_neg hlen] at h
      have h5 := Option.some.inj h
      rw [← h5]
      exact ⟨hInv2, hc2, rfl⟩

theorem ortho_start_search_step_inv {K : Type} [DecidableEq K]
    (vkey : Coord → Coord → K) (g : GeoOracle) (P : OrthoParams)
    (ps ps' : OrthoPhaseState K) (zc : Nat × Coord)
    (h : ortho_start_search_step vkey g P ps zc = some ps') (hI : PhInv ps) :
    PhInv ps' := by
  obtain ⟨hInv, hprev, hfirst, hend⟩ := hI
  unfold ortho_start_search_step at h
  dsimp only at h
  rw [option_bind_eq_some] at h
  obtain ⟨z_group, hzg, h⟩ := h
  rw [option_bind_eq_some] at h
  obtain ⟨sw, hsw, h⟩ := h
  rw [option_bind_eq_some] at h
  obtain ⟨q, hq, h⟩ := h
  rw [option_bind_eq_some] at h
  obtain ⟨sp, hsp, h⟩ := h
  have h2 := Option.some.inj h
  obtain ⟨hqInv, hqPw, hqB, hqLe⟩ := ortho_column_inv vkey _ _ sw.2 sw.1 ps.s q hq hInv
  obtain ⟨hspInv, hspC, hspA⟩ := ortho_start_join_inv vkey P zc.1 ps.s.node_counter
    ps.previous_node_tag q sp hsp hqInv hqB hprev hqLe
  rw [← h2]
  refine ⟨hspInv, ?_, ?_, ?_⟩
  · intro t ht
    show 1 ≤ t ∧ t < sp.1.node_counter
    rw [hspA] at ht
    rw [hspC]
    exact ⟨(hqB t ht).2.1, (hqB t ht).2.2⟩
  · intro t ht
    show 1 ≤ t ∧ t < sp.1.node_counter
    rw [hspC]
    by_cases hcap : q.2.length = P.noz.length
    · rw [if_pos hcap] at ht
      exact ⟨(hqB t ht).2.1, (hqB t ht).2.2⟩
    · rw [if_neg hcap] at ht
      have := hfirst t ht
      omega
  · intro t ht
    show 1 ≤ t ∧ t < sp.1.node_counter
    have := hend t ht
    rw [hspC]
    omega

theorem ortho_end_search_step_inv {K : Type} [DecidableEq K]
    (vkey : Coord → Coord → K) (g : GeoOracle) (P : OrthoParams)
    (ps ps' : OrthoPhaseState K) (zc : Nat × Coord)
    (h : ortho_end_search_step vkey g P ps zc = some ps') (hI : PhInv ps) :
    PhInv ps' := by
  obtain ⟨hInv, hprev, hfirst, hend⟩ := hI
  unfold ortho_end_search_step at h
  dsimp only at h
  rw [option_bind_eq_some] at h
  obtain ⟨z_group, hzg, h⟩ := h
  rw [option_bind_eq_some] at h
  obtain ⟨sw, hsw, h⟩ := h
  rw [option_bind_eq_some] at h
  obtain ⟨q, hq, h⟩ := h
  rw [option_bind_eq_some] at h
  obtain ⟨sp, hsp, h⟩ := h
  have h2 := Option.some.inj h
  obtain ⟨hqInv, hqPw, hqB, hqLe⟩ := ortho_column_inv vkey _ _ sw.2 sw.1 ps.s q hq hInv
  obtain ⟨hspInv, hspC, hspA⟩ := ortho_end_join_inv vkey P zc.1 ps.s.node_counter
    ps.previous_node_tag q sp hsp hqInv hqB hprev hqLe
  rw [← h2]
  refine ⟨hspInv, ?_, ?_, ?_⟩
  · intro t ht
    show 1 ≤ t ∧ t < sp.1.node_counter
    rw [hspA] at ht
    rw [hspC]
    exact ⟨(hqB t ht).2.1, (hqB t ht).2.2⟩
  · intro t ht
    show 1 ≤ t ∧ t < sp.1.node_counter
    have := hfirst t ht
    rw [hspC]
    omega
  · intro t ht
    show 1 ≤ t ∧ t < sp.1.node_counter
    rw [hspC]
    by_cases hcap : q.2.length = P.noz.length
    · rw [if_pos hcap] at ht
      exact ⟨(hqB t ht).2.1, (hqB t ht).2.2⟩
    · rw [if_neg hcap] at ht
      have := hend t ht
      omega

theorem ortho_start_edge_inv {K : Type} [DecidableEq K] (vkey : Coord → Coord → K)
    (g : GeoOracle) (P : OrthoParams) (ps ps' : OrthoPhaseState K)
    (h : ortho_start_edge vkey g P ps = some ps') (hI : PhInv ps) : PhInv ps' := by
  unfold ortho_start_edge at h
  by_cases hth : |P.skew_1 + P.zeta| < 11
  · rw [if_pos hth] at h
    exact ortho_start_simple_inv vkey P ps ps' h hI
  · rw [if_neg hth] at h
    rw [option_bind_eq_some] at h
    obtain ⟨ps2, hfold, h⟩ := h
    have hP2 : PhInv ps2 := by
      refine foldlM_option_inv_mem _ PhInv _ ?_ ps ps2 hI hfold
      intro b a b' _ hb hstep
      exact ortho_start_search_step_inv vkey g P b b' a hstep hb
    have h2 := Option.some.inj h
    rw [← h2]
    exact hP2

theorem ortho_end_edge_inv {K : Type} [DecidableEq K] (vkey : Coord → Coord → K)
    (g : GeoOracle) (P : OrthoParams) (ps ps' : OrthoPhaseState K)
    (h : ortho_end_edge vkey g P ps = some ps') (hI : PhInv ps) : PhInv ps' := by
  unfold ortho_end_edge at h
  by_cases hth : |P.skew_2 + P.zeta| < 11
  · rw [if_pos hth] at h
    exact ortho_end_simple_inv vkey P ps ps' h hI
  · rw [if_neg hth] at h
    rw [option_bind_eq_some] at h
    obtain ⟨ps2, hfold, h⟩ := h
    have hP2 : PhInv ps2 := by
      refine foldlM_option_inv_mem _ PhInv _ ?_ ps ps2 hI hfold
      intro b a b' _ hb hstep
      exact ortho_end_search_step_inv vkey g P b b' a hstep hb
    have h2 := Option.some.inj h
    rw [← h2]
    exact hP2

/-- Accumulator invariant of the uniform-region station loop (the third
component is the `assigned_node_tag` carry, empty between stations). -/
def UInv {K : Type} (first endc : List Nat)
    (acc : MeshState K × List Nat × List Nat) : Prop :=
  Inv acc.1
  ∧ (∀ t ∈ acc.2.1, 1 ≤ t ∧ t < acc.1.node_counter)
  ∧ acc.2.2 = []
  ∧ (∀ t ∈ first, 1 ≤ t ∧ t < acc.1.node_counter)
  ∧ (∀ t ∈ endc, 1 ≤ t ∧ t < acc.1.node_counter)

/-- What survives after the station loop, enough for the extra end join:
both carried lists valid and disjoint. -/
def UFinal {K : Type} (acc : MeshState K × List Nat × List Nat) : Prop :=
  Inv acc.1
  ∧ (∀ t ∈ acc.2.1, 1 ≤ t ∧ t < acc.1.node_counter)
  ∧ (∀ t ∈ acc.2.2, 1 ≤ t ∧ t < acc.1.node_counter)
  ∧ (∀ p ∈ acc.2.1, ∀ c ∈ acc.2.2, p ≠ c)

theorem ortho_uniform_step_inv {K : Type} [DecidableEq K] (vkey : Coord → Coord → K)
    (g : GeoOracle) (P : OrthoParams) (L : Nat) (first endc : List Nat)
    (acc out : MeshState K × List Nat × List Nat) (zx : Nat × ℚ)
    (h : ortho_uniform_step vkey g P L first endc acc zx = some out)
    (hU : UInv first endc acc) :
    UFinal out ∧ (zx.1 ≠ L - 1 → UInv first endc out) := by
  obtain ⟨hInv, hprev, hass, hfirst, hend⟩ := hU
  unfold ortho_uniform_step at h
  dsimp only at h
  rw [hass] at h
  rw [option_bind_eq_some] at h
  obtain ⟨q, hq, h⟩ := h
  have hcol : ColInv acc.1.node_counter q := by
    refine foldlM_option_inv_mem _ (ColInv acc.1.node_counter) _ ?_ (acc.1, []) q
      ⟨hInv, List.Pairwise.nil, by simp, Nat.le_refl _⟩ hq
    intro b a b' _ hb hstep
    exact ortho_uniform_place_step_inv vkey _ _ acc.1.node_counter b b' a hstep hb
  obtain ⟨hqInv, hqPw, hqB, hqLe⟩ := hcol
  rw [option_bind_eq_some] at h
  obtain ⟨s2, hlink, h⟩ := h
  have hprev2 : ∀ p ∈ (if zx.1 = 0 then first else acc.2.1), 1 ≤ p ∧ p < acc.1.node_counter := by
    by_cases hz0 : zx.1 = 0
    · rw [if_pos hz0]
      exact hfirst
    · rw [if_neg hz0]
      exact hprev
  obtain ⟨hInv2, hc2, -⟩ := link_longitudinal_inv vkey q.2 q.1
    (if zx.1 = 0 then first else acc.2.1) s2 hlink hqInv
    (fun p hp => ⟨(hprev2 p hp).1, by have := (hprev2 p hp).2; omega⟩)
    (fun c hc => ⟨(hqB c hc).2.1, (hqB c hc).2.2⟩)
    (fun p hp c hc => by
      have h4 := (hprev2 p hp).2
      have h5 := (hqB c hc).1
      omega)
  by_cases hL : zx.1 ≠ L - 1
  · rw [if_pos hL] at h
    have h2 := Option.some.inj h
    rw [← h2]
    constructor
    · refine ⟨hInv2, ?_, by simp, by simp⟩
      intro t ht
      show 1 ≤ t ∧ t < s2.node_counter
      rw [hc2]
      exact ⟨(hqB t ht).2.1, (hqB t ht).2.2⟩
    · intro _
      refine ⟨hInv2, ?_, rfl, ?_, ?_⟩
      · intro t ht
        show 1 ≤ t ∧ t < s2.node_counter
        rw [hc2]
        exact ⟨(hqB t ht).2.1, (hqB t ht).2.2⟩
      · intro t ht
        show 1 ≤ t ∧ t < s2.node_counter
        have := hfirst t ht
        rw [hc2]
        omega
      · intro t ht
        show 1 ≤ t ∧ t < s2.node_counter
        have := hend t ht
        rw [hc2]
        omega
  · rw [if_neg hL] at h
    have h2 := Option.some.inj h
    rw [← h2]
    refine ⟨⟨hInv2, ?_, ?_, ?_⟩, fun hC => absurd hC (by omega)⟩
    · intro t ht
      show 1 ≤ t ∧ t < s2.node_counter
      rw [hc2]
      exact ⟨(hqB t ht).2.1, (hqB t ht).2.2⟩
    · intro t ht
      show 1 ≤ t ∧ t < s2.node_counter
      have := hend t ht
      rw [hc2]
      omega
    · intro p hp c hc
      have h4 := hqB p hp
      have h5 := hend c hc
      omega

theorem ortho_uniform_fold_inv {K : Type} [DecidableEq K] (vkey : Coord → Coord → K)
    (g : GeoOracle) (P : OrthoParams) (L : Nat) (first endc : List Nat) :
    ∀ (xs : List ℚ) (k : Nat) (acc out : MeshState K × List Nat × List Nat),
      k + xs.length = L →
      (List.enumFrom k xs).foldlM
        (ortho_uniform_step vkey g P L first endc) acc = some out →
      UInv first endc acc → UFinal out := by
  intro xs
  induction xs with
  | nil =>
    intro k acc out hk h hU
    rw [show List.enumFrom k ([] : List ℚ) = [] from rfl, List.foldlM_nil] at h
    have h2 := Option.some.inj h
    rw [← h2]
    refine ⟨hU.1, hU.2.1, ?_, ?_⟩
    · rw [hU.2.2.1]
      simp
    · rw [hU.2.2.1]
      simp
  | cons x xs ih =>
    intro k acc out hk h hU
    rw [show List.enumFrom k (x :: xs) = (k, x) :: List.enumFrom (k + 1) xs from rfl,
      List.foldlM_cons] at h
    cases hstep : ortho_uniform_step vkey g P L first endc acc (k, x) with
    | none => rw [hstep] at h; exact Option.noConfusion h
    | some mid =>
      rw [hstep, option_some_bind] at h
      obtain ⟨hFin, hCont⟩ :=
        ortho_uniform_step_inv vkey g P L first endc acc mid (k, x) hstep hU
      cases xs with
      | nil =>
        rw [show List.enumFrom (k + 1) ([] : List ℚ) = [] from rfl,
          List.foldlM_nil] at h
        have h2 := Option.some.inj h
        rw [← h2]
        exact hFin
      | cons y ys =>
        have hk2 : (k, x).1 ≠ L - 1 := by
          simp only [List.length_cons] at hk
          show k ≠ L - 1
          omega
        exact ih (k + 1) mid out (by simp only [List.length_cons] at hk ⊢; omega) h
          (hCont hk2)

theorem ortho_uniform_region_inv {K : Type} [DecidableEq K]
    (vkey : Coord → Coord → K) (g : GeoOracle) (P : OrthoParams)
    (ps : OrthoPhaseState K) (s' : MeshState K)
    (h : ortho_uniform_region vkey g P ps = some s') (hI : PhInv ps) : Inv s' := by
  obtain ⟨hInv, hprev, hfirst, hend⟩ := hI
  unfold ortho_uniform_region at h
  dsimp only at h
  rw [option_bind_eq_some] at h
  obtain ⟨x_first, hx1, h⟩ := h
  rw [option_bind_eq_some] at h
  obtain ⟨x_second, hx2, h⟩ := h
  rw [option_bind_eq_some] at h
  obtain ⟨cor_fir, hcf, h⟩ := h
  rw [option_bind_eq_some] at h
  obtain ⟨cor_sec, hcs, h⟩ := h
  rw [option_bind_eq_some] at h
  obtain ⟨q, hfold, h⟩ := h
  have hU0 : UInv ps.first_connecting_region_nodes ps.end_connecting_region_nodes
      (ps.s, ps.previous_node_tag, ([] : List Nat)) :=
    ⟨hInv, hprev, rfl, hfirst, hend⟩
  have hFin := ortho_uniform_fold_inv vkey g P _ _ _ _ 0
    (ps.s, ps.previous_node_tag, []) q (by omega) hfold hU0
  obtain ⟨hInvS, -, -⟩ := link_longitudinal_inv vkey q.2.2 q.1 q.2.1 s' h hFin.1
    hFin.2.1 hFin.2.2.1 hFin.2.2.2
  exact hInvS

theorem initMeshState_inv {K : Type} : Inv (initMeshState : MeshState K) := by
  refine ⟨⟨rfl, Nat.le_refl 1, ?_⟩, ?_⟩
  · intro p hp
    exact absurd hp (List.not_mem_nil p)
  · intro e he
    rcases he with he | he | he <;> exact absurd he (List.not_mem_nil e)

theorem orthogonal_meshing_inv {K : Type} [DecidableEq K] (vkey : Coord → Coord → K)
    (g : GeoOracle) (P : OrthoParams) (s s' : MeshState K)
    (h : orthogonal_meshing vkey g P s = some s') (hInv : Inv s) : Inv s' := by
  unfold orthogonal_meshing at h
  dsimp only at h
  rw [option_bind_eq_some] at h
  obtain ⟨ps1, h1, h⟩ := h
  rw [option_bind_eq_some] at h
  obtain ⟨ps2, hmid, h⟩ := h
  have hP0 : PhInv (⟨s, [], [], [], none⟩ : OrthoPhaseState K) := by
    refine ⟨hInv, ?_, ?_, ?_⟩ <;> (intro t ht; exact absurd ht (List.not_mem_nil t))
  have hP1 := ortho_start_edge_inv vkey g P _ ps1 h1 hP0
  have hP2 := ortho_end_edge_inv vkey g P ps1 ps2 hmid hP1
  exact ortho_uniform_region_inv vkey g P ps2 s' h hP2

/-- C2: for every construction by either meshing algorithm (from the fresh
counters of `Mesh.__init__`, over arbitrary geometry and parameters), the
keys of `node_spec` are exactly the contiguous range `1 .. node_counter-1`
and every record stores the current counter as its `tag`: tags are unique,
start at 1, are never reused or renumbered and have no gaps. -/
theorem node_tags_contiguous {K : Type} [DecidableEq K] (vkey : Coord → Coord → K) :
    (∀ (zfun : ℚ → ℚ) (nox : List ℚ) (sweeping_nodes : List Coord)
        (s' : MeshState K),
        fixed_sweep_node_meshing vkey zfun nox sweeping_nodes initMeshState = some s' →
        s'.node_spec.map Prod.fst = List.range' 1 (s'.node_counter - 1)
          ∧ ∀ p ∈ s'.node_spec, p.2.tag = p.1)
    ∧ (∀ (g : GeoOracle) (P : OrthoParams) (s' : MeshState K),
        orthogonal_meshing vkey g P initMeshState = some s' →
        s'.node_spec.map Prod.fst = List.range' 1 (s'.node_counter - 1)
          ∧ ∀ p ∈ s'.node_spec, p.2.tag = p.1) := by
  constructor
  · intro zfun nox sweeping_nodes s' h
    have hInv := fixed_sweep_node_meshing_inv vkey zfun nox sweeping_nodes
      initMeshState s' h initMeshState_inv
    exact ⟨hInv.1.1, hInv.1.2.2⟩
  · intro g P s' h
    have hInv := orthogonal_meshing_inv vkey g P initMeshState s' h initMeshState_inv
    exact ⟨hInv.1.1, hInv.1.2.2⟩

/-- C3: for every construction by either meshing algorithm, every record of
`long_ele`, `trans_ele` and `edge_span_ele` references two node tags that
are keys of the final `node_spec`, and the two tags differ. -/
theorem element_nodes_valid {K : Type} [DecidableEq K] (vkey : Coord → Coord → K) :
    (∀ (zfun : ℚ → ℚ) (nox : List ℚ) (sweeping_nodes : List Coord)
        (s' : MeshState K),
        fixed_sweep_node_meshing vkey zfun nox sweeping_nodes initMeshState = some s' →
        ∀ e, (e ∈ s'.long_ele ∨ e ∈ s'.trans_ele ∨ e ∈ s'.edge_span_ele) →
          (dictFind? s'.node_spec e.node_i).isSome
            ∧ (dictFind? s'.node_spec e.node_j).isSome ∧ e.node_i ≠ e.node_j)
    ∧ (∀ (g : GeoOracle) (P : OrthoParams) (s' : MeshState K),
        orthogonal_meshing vkey g P initMeshState = some s' →
        ∀ e, (e ∈ s'.long_ele ∨ e ∈ s'.trans_ele ∨ e ∈ s'.edge_span_ele) →
          (dictFind? s'.node_spec e.node_i).isSome
            ∧ (dictFind? s'.node_spec e.node_j).isSome ∧ e.node_i ≠ e.node_j) := by
  constructor
  · intro zfun nox sweeping_nodes s' h e he
    have hInv := fixed_sweep_node_meshing_inv vkey zfun nox sweeping_nodes
      initMeshState s' h initMeshState_inv
    obtain ⟨hi, hj, hij⟩ := hInv.2 e he
    exact ⟨(nodeFind?_isSome_iff s' hInv.1 e.node_i).mpr hi,
      (nodeFind?_isSome_iff s' hInv.1 e.node_j).mpr hj, hij⟩
  · intro g P s' h e he
    have hInv := orthogonal_meshing_inv vkey g P initMeshState s' h initMeshState_inv
    obtain ⟨hi, hj, hij⟩ := hInv.2 e he
    exact ⟨(nodeFind?_isSome_iff s' hInv.1 e.node_i).mpr hi,
      (nodeFind?_isSome_iff s' hInv.1 e.node_j).mpr hj, hij⟩

/-- A concrete fixed-sweep run (3 stations, 4 rows) for witnessing. -/
def witness_skew_run : Option (MeshState Nat) :=
  fixed_sweep_node_meshing (fun _ _ => 0) (fixed_sweep_zfun 0) (linspace 0 10 3)
    (mkEdgeConstructionLine (0, 0, 0) 7 1 0 4 0 0).node_list initMeshState

def witness_skew_state : MeshState Nat := witness_skew_run.getD initMeshState

/-- A concrete geometry oracle (straight level path, squared distance) and
parameter set (both skews below threshold, 3 stations, 2 rows) for
witnessing the orthogonal algorithm. -/
def witness_geo : GeoOracle :=
  ⟨fun _ _ => (0, 0), fun q => q, 3, fun _ => 1, fun _ => 0, fun _ => 0,
    fun a b => (a.1 - b.1) ^ 2 + (a.2.2 - b.2.2) ^ 2⟩

def witness_ortho_params : OrthoParams :=
  ⟨10, 3, 0, 0, 0, (0, 0, 0), [0, 7], [(0, 0, 0), (0, 0, 7)],
    [(10, 0, 0), (10, 0, 7)]⟩

def witness_ortho_run : Option (MeshState Nat) :=
  orthogonal_meshing (fun _ _ => 0) witness_geo witness_ortho_params initMeshState

def witness_ortho_state : MeshState Nat := witness_ortho_run.getD initMeshState

/-- Witness for C2 at the concrete fixed-sweep run. -/
theorem node_tags_contiguous_witness :
    witness_skew_state.node_spec.map Prod.fst =
      List.range' 1 (witness_skew_state.node_counter - 1) :=
  ((node_tags_contiguous (fun _ _ => 0)).1 (fixed_sweep_zfun 0) (linspace 0 10 3)
    (mkEdgeConstructionLine (0, 0, 0) 7 1 0 4 0 0).node_list witness_skew_state
    (by with_unfolding_all decide)).1

/-- The first transverse element of the concrete orthogonal run. -/
def witness_ortho_ele : Element :=
  witness_ortho_state.trans_ele.headD ⟨0, 0, 0, 0, 0⟩

/-- Witness for C3 at a concrete element of the concrete orthogonal run. -/
theorem element_nodes_valid_witness :
    (dictFind? witness_ortho_state.node_spec witness_ortho_ele.node_i).isSome
      ∧ (dictFind? witness_ortho_state.node_spec witness_ortho_ele.node_j).isSome
      ∧ witness_ortho_ele.node_i ≠ witness_ortho_ele.node_j :=
  (element_nodes_valid (fun _ _ => 0)).2 witness_geo witness_ortho_params
    witness_ortho_state (by with_unfolding_all decide) witness_ortho_ele
    (by with_unfolding_all decide)

/-! ### Member-group identification (`Mesh.__identify_member_groups`, Mesh.py
lines 503-697)

Only the data feeding the grid identification is embedded: the connectivity
dicts (`node_connect_z_dict` / `node_connect_x_dict`), `grid_number_dict` and
`grid_vicinity_dict`.  The width dicts (`d1`/`d2`, `node_width_z_dict` /
`node_width_x_dict`), `common_z_group_element`, `z_group_to_ele` and
`x_group_to_ele` are built by the same method but are never read by the grid
identification (lines 615-697), so they are omitted.  `grid_number_dict` and
`grid_vicinity_dict` have keys 0,1,2,... assigned by an increasing counter, so
both are represented positionally as plain lists.  A grid-cell entry is
`Option Nat`: `none` stands for the `[]` placeholder stored when no third
bounding node exists (line 637).  The in-place `grid.remove([])` of line 650
mutates the stored cell, but the mutation only deletes the `[]` placeholder,
which no later integer-membership test or truthiness-filtered node loop can
observe, so the cells list is left unmutated here. -/

/-- Elements of `pool` having `n` as one of their two endpoint nodes: the `n1`
and `n2` comprehensions of Mesh.py lines 526-527, 567-568 and 594-595. -/
def touching_eles (pool : List Element) (n : Nat) : List Element :=
  pool.filter (fun t => t.node_i = n || t.node_j = n)

/-- The `p1`/`p2` collection of Mesh.py lines 528-542 (and the identical loops
at 569-582, 596-609): endpoints of the crossing elements other than the two
endpoints `a`, `b` of the current element, in traversal order. -/
def other_endpoints (ns : List Element) (a b : Nat) : List Nat :=
  ns.foldl (fun p item =>
    let p := if item.node_i ≠ a ∧ item.node_i ≠ b then p ++ [item.node_i] else p
    if item.node_j ≠ a ∧ item.node_j ≠ b then p ++ [item.node_j] else p) []

/-- One pass of the connectivity-dict loops (Mesh.py lines 521-547, 562-587,
589-614): for each element of `axis`, `setdefault` its `node_i` to the other
endpoints of the `cross` elements touching `node_i`, likewise for `node_j`. -/
def connect_dict_pass (axis cross : List Element)
    (d0 : List (Nat × List Nat)) : List (Nat × List Nat) :=
  axis.foldl (fun d ele =>
    let p1 := other_endpoints (touching_eles cross ele.node_i) ele.node_i ele.node_j
    let p2 := other_endpoints (touching_eles cross ele.node_j) ele.node_i ele.node_j
    let d := (dictSetdefault d ele.node_i p1).2
    (dictSetdefault d ele.node_j p2).2) d0

/-- `node_connect_z_dict` (Mesh.py lines 520-547): neighbours of each
longitudinal-element endpoint through the transverse elements. -/
def node_connect_z_dict {K : Type} (s : MeshState K) : List (Nat × List Nat) :=
  connect_dict_pass s.long_ele s.trans_ele []

/-- `node_connect_x_dict` (Mesh.py lines 561-587 then 589-614): neighbours of
each transverse-element endpoint through the longitudinal elements, then the
same pass over the edge-span elements extending the same dict. -/
def node_connect_x_dict {K : Type} (s : MeshState K) : List (Nat × List Nat) :=
  connect_dict_pass s.edge_span_ele s.long_ele
    (connect_dict_pass s.trans_ele s.long_ele [])

/-- One value of `grid_number_dict`: `[node_tag, x_node, n3, z_node]`, with
`none` for the `[]` placeholder of Mesh.py line 637. -/
abbrev GridCell := List (Option Nat)

/-- The `n3` comprehension of Mesh.py line 627: tags of the nodes whose
`x_group` and `z_group` match, in `node_spec` insertion order. -/
def n3_candidates {K : Type} (s : MeshState K) (xg zg : Nat) : List Nat :=
  s.node_spec.filterMap (fun kv =>
    if kv.2.x_group = xg ∧ kv.2.z_group = zg then some kv.2.tag else none)

/-- Inner `z_node` loop of `grid_number_dict` construction (Mesh.py lines
624-638) for a fixed `node_tag` and `x_node` (whose `x_group` is `xg`); fails
(`none`) where the source would raise `KeyError` on a missing node tag. -/
def grid_cells_inner {K : Type} (s : MeshState K) (node_tag xg x_node : Nat)
    (zs : List Nat) (cells : List GridCell) : Option (List GridCell) :=
  zs.foldlM (fun cells z_node => do
    let zrec ← nodeFind? s z_node
    match n3_candidates s xg zrec.z_group with
    | n3 :: _ =>
      if cells.any (fun c => c.contains (some node_tag) && c.contains (some x_node)
          && c.contains (some z_node) && c.contains (some n3)) then
        pure cells
      else
        pure (cells ++ [[some node_tag, some x_node, some n3, some z_node]])
    | [] =>
      if cells.any (fun c => c.contains (some node_tag) && c.contains (some x_node)
          && c.contains (some z_node)) then
        pure cells
      else
        pure (cells ++ [[some node_tag, some x_node, none, some z_node]])) cells

/-- `grid_number_dict` construction (Mesh.py lines 616-638), positionally:
cell `k` of the result is `grid_number_dict[k]`. -/
def grid_number_cells {K : Type} (s : MeshState K) : Option (List GridCell) :=
  (s.node_spec.map Prod.fst).foldlM (fun cells node_tag => do
    let xs := (dictFind? (node_connect_x_dict s) node_tag).getD []
    let zs := (dictFind? (node_connect_z_dict s) node_tag).getD []
    xs.foldlM (fun cells x_node => do
      let xrec ← nodeFind? s x_node
      grid_cells_inner s node_tag xrec.x_group x_node zs cells) cells) []

/-- Insert into a `≤`-sorted list, keeping it sorted. -/
def sortedInsert {A : Type} [LinearOrder A] (a : A) : List A → List A
  | [] => [a]
  | b :: l => if a ≤ b then a :: b :: l else b :: sortedInsert a l

/-- `list(np.unique(l))`: the distinct values of `l` in increasing order. -/
def npUnique {A : Type} [LinearOrder A] (l : List A) : List A :=
  (l.foldr sortedInsert []).dedup

/-- The `subdict` of `grid_vicinity_dict` (Mesh.py line 664): neighbour grid
ids by side, absent keys as `none`; repeated assignment overwrites. -/
structure GridVicinity where
  top : Option Nat
  bottom : Option Nat
  left : Option Nat
  right : Option Nat
deriving DecidableEq

def emptyVicinity : GridVicinity := ⟨none, none, none, none⟩

/-- Grid ids whose cell contains `node` (the membership scan of Mesh.py
line 652). -/
def cells_containing (cells : List GridCell) (node : Nat) : List Nat :=
  (cells.enum.filter (fun p => some node ∈ p.2)).map Prod.fst

/-- The per-node data gathered on a cell's nodes (Mesh.py lines 654-657 and
676-679): `x_group`s, `z_group`s, x coordinates and z coordinates, in node
order; fails where the source would raise `KeyError`. -/
def nodes_data {K : Type} (s : MeshState K) (tags : List Nat) :
    Option (List Nat × List Nat × List ℚ × List ℚ) :=
  tags.foldlM (fun acc node => do
    let nr ← nodeFind? s node
    pure (acc.1 ++ [nr.x_group], acc.2.1 ++ [nr.z_group],
      acc.2.2.1 ++ [nr.coordinate.1], acc.2.2.2 ++ [nr.coordinate.2.2]))
    ([], [], [], [])

/-- Classification of one `neighbour` grid against the current grid `k`
(Mesh.py lines 665-696).  `cxg`, `czg`, `cx`, `cz` are the already-uniqued
current group/coordinate lists.  The `if not nodes: continue` of line 674
skips both the `[]` placeholder and a zero node tag (Python truthiness);
`max` of an empty coordinate list fails as the source's `ValueError` would. -/
def neighbour_classify {K : Type} (s : MeshState K) (cells : List GridCell)
    (cxg czg : List Nat) (cx cz : List ℚ) (k : Nat) (sub : GridVicinity)
    (neighbour : Nat) : Option GridVicinity := do
  if neighbour = k then
    pure sub
  else
    let cell ← cells[neighbour]?
    let tags := (cell.filterMap id).filter (fun t => t ≠ 0)
    let data ← nodes_data s tags
    let x_group := npUnique data.1
    let z_group := npUnique data.2.1
    let x_coor := npUnique data.2.2.1
    let z_coor := npUnique data.2.2.2
    let sub ←
      if x_group.all (fun a => a ∈ cxg) then do
        let mz ← z_coor.max?
        let mcz ← cz.max?
        if mcz < mz then pure { sub with top := some neighbour }
        else pure { sub with bottom := some neighbour }
      else pure sub
    if z_group.all (fun a => a ∈ czg) then do
      let mx ← x_coor.max?
      let mcx ← cx.max?
      if mcx < mx then pure { sub with right := some neighbour }
      else pure { sub with left := some neighbour }
    else pure sub

/-- `grid_vicinity_dict` construction (Mesh.py lines 641-697), positionally:
entry `k` of the result is `grid_vicinity_dict[k]`.  The one `[]` placeholder
a cell may hold is removed first (lines 649-650); the remaining entries are
the cell's node tags. -/
def grid_vicinity {K : Type} (s : MeshState K) (cells : List GridCell) :
    Option (List GridVicinity) :=
  cells.enum.mapM (fun p => do
    let cleanedOpts := if none ∈ p.2 then p.2.erase none else p.2
    let tags ← cleanedOpts.mapM id
    let data ← nodes_data s tags
    let record := npUnique (tags.foldl (fun r node => r ++ cells_containing cells node) [])
    record.foldlM
      (neighbour_classify s cells (npUnique data.1) (npUnique data.2.1)
        (npUnique data.2.2.1) (npUnique data.2.2.2) p.1) emptyVicinity)

/-- The grid identification of `Mesh.__identify_member_groups`: grid cells,
then the vicinity sub-dicts. -/
def identify_grid_vicinity {K : Type} (s : MeshState K) :
    Option (List GridVicinity) := do
  let cells ← grid_number_cells s
  grid_vicinity s cells

/-- Left/right symmetry of the vicinity relation: whenever grid `k` records
`R` as its right neighbour, grid `R` records `k` back as its left neighbour. -/
def vicinity_lr_symmetric (vs : List GridVicinity) : Bool :=
  vs.enum.all (fun p =>
    match p.2.right with
    | none => true
    | some R => decide ((vs.getD R emptyVicinity).left = some p.1))

/-! ### A concrete orthogonal mesh whose grid vicinity is left/right
asymmetric

Inputs: `long_dim = 8`, `width = 7`, `edge_width = 8`, `num_trans_beam =
num_long_beam = 3`, `skew_1 = 0`, `skew_2 = -45`, straight flat sweep path
(`pt1 = pt2 = origin`, so `m = c = ζ = 0`).  The edge distance exceeds the
width, so the row offsets `noz = [0, 8, 7]` are non-monotone — the program
accepts this and completes the mesh.  On the flat path every trigonometric
value the construction consumes is exact: the sweep path is `z = 0`, the
start edge is below the 11° threshold (simple branch, no rotation), and in
the end-edge search branch the normal at the converged reference point is
vertical, giving `arctan` semantics `φ = π/2`, hence rotation angle
`π/2 − |φ| = 0` with `cos 0 = 1`, `sin 0 = 0`; `tan(−45°) = −1` is exact as
well.  The oracle below therefore reproduces the program's arithmetic
exactly, with squared distances standing for the (monotonically compared)
Euclidean distances of the search. -/

def flat_path_geo : GeoOracle :=
  ⟨fun _ _ => (0, 0), fun q => q, 3, fun _ => 1, fun _ => 0, fun _ => 0,
    fun a b => (a.1 - b.1) ^ 2 + (a.2.2 - b.2.2) ^ 2⟩

/-- The `OrthoParams` that `mesh_construct_ortho` assembles for the inputs
above (checked inside `c6_construct`). -/
def c6_params : OrthoParams :=
  ⟨8, 3, 0, -45, 0, (0, 0, 0), [0, 8, 7],
    [(0, 0, 0), (0, 0, 8), (0, 0, 7)], [(8, 0, 0), (16, 0, 8), (15, 0, 7)]⟩

/-- Phase state after the (simple-branch) start edge region. -/
def c6_start_state : OrthoPhaseState Nat :=
  ⟨⟨4, 3, ⟨[(0, 1)], 1⟩, 1, 0,
      [(1, ⟨1, (0, 0, 0), 0, 0⟩), (2, ⟨2, (0, 0, 8), 0, 1⟩), (3, ⟨3, (0, 0, 7), 0, 2⟩)],
      [], [], [⟨1, 1, 2, 0, 1⟩, ⟨2, 2, 3, 0, 1⟩], [(1, 0), (2, 0), (3, 0)]⟩,
    [], [1, 2, 3], [], none⟩

/-- Phase state after the first end-edge search column. -/
def c6_mid1 : OrthoPhaseState Nat :=
  ⟨⟨7, 5, ⟨[(0, 1)], 1⟩, 2, 0,
      [(1, ⟨1, (0, 0, 0), 0, 0⟩), (2, ⟨2, (0, 0, 8), 0, 1⟩), (3, ⟨3, (0, 0, 7), 0, 2⟩),
        (4, ⟨4, (8, 0, 0), 1, 0⟩), (5, ⟨5, (8, 0, 8), 1, 1⟩), (6, ⟨6, (8, 0, 7), 1, 2⟩)],
      [], [⟨3, 4, 5, 1, 1⟩, ⟨4, 5, 6, 1, 1⟩],
      [⟨1, 1, 2, 0, 1⟩, ⟨2, 2, 3, 0, 1⟩], [(1, 0), (2, 0), (3, 0)]⟩,
    [4, 5, 6], [1, 2, 3], [4, 5, 6],
    some ([(0, 0, 0), (0, 0, 8), (0, 0, 7)], [0, 1, 2])⟩

/-- Phase state after the second end-edge search column. -/
def c6_mid2 : OrthoPhaseState Nat :=
  ⟨⟨9, 9, ⟨[(0, 1)], 1⟩, 3, 0,
      [(1, ⟨1, (0, 0, 0), 0, 0⟩), (2, ⟨2, (0, 0, 8), 0, 1⟩), (3, ⟨3, (0, 0, 7), 0, 2⟩),
        (4, ⟨4, (8, 0, 0), 1, 0⟩), (5, ⟨5, (8, 0, 8), 1, 1⟩), (6, ⟨6, (8, 0, 7), 1, 2⟩),
        (7, ⟨7, (16, 0, 8), 2, 1⟩), (8, ⟨8, (16, 0, 7), 2, 2⟩)],
      [⟨6, 5, 7, 1, 1⟩, ⟨7, 6, 8, 2, 1⟩],
      [⟨3, 4, 5, 1, 1⟩, ⟨4, 5, 6, 1, 1⟩, ⟨5, 7, 8, 2, 1⟩],
      [⟨1, 1, 2, 0, 1⟩, ⟨2, 2, 3, 0, 1⟩, ⟨8, 4, 7, 0, 1⟩],
      [(1, 0), (2, 0), (3, 0), (4, 0), (7, 0)]⟩,
    [7, 8], [1, 2, 3], [4, 5, 6], some ([(0, 0, 8), (0, 0, 7)], [1, 2])⟩

/-- Phase state after the third end-edge search column. -/
def c6_mid3 : OrthoPhaseState Nat :=
  ⟨⟨10, 11, ⟨[(0, 1)], 1⟩, 4, 0,
      [(1, ⟨1, (0, 0, 0), 0, 0⟩), (2, ⟨2, (0, 0, 8), 0, 1⟩), (3, ⟨3, (0, 0, 7), 0, 2⟩),
        (4, ⟨4, (8, 0, 0), 1, 0⟩), (5, ⟨5, (8, 0, 8), 1, 1⟩), (6, ⟨6, (8, 0, 7), 1, 2⟩),
        (7, ⟨7, (16, 0, 8), 2, 1⟩), (8, ⟨8, (16, 0, 7), 2, 2⟩),
        (9, ⟨9, (15, 0, 7), 3, 2⟩)],
      [⟨6, 5, 7, 1, 1⟩, ⟨7, 6, 8, 2, 1⟩, ⟨9, 8, 9, 2, 1⟩],
      [⟨3, 4, 5, 1, 1⟩, ⟨4, 5, 6, 1, 1⟩, ⟨5, 7, 8, 2, 1⟩],
      [⟨1, 1, 2, 0, 1⟩, ⟨2, 2, 3, 0, 1⟩, ⟨8, 4, 7, 0, 1⟩, ⟨10, 7, 9, 0, 1⟩],
      [(1, 0), (2, 0), (3, 0), (4, 0), (7, 0), (9, 0)]⟩,
    [9], [1, 2, 3], [4, 5, 6], some ([(0, 0, 7)], [2])⟩

/-- Phase state at the end of the end-edge region (edge count bumped). -/
def c6_end_state : OrthoPhaseState Nat :=
  ⟨⟨10, 11, ⟨[(0, 1)], 1⟩, 4, 1,
      [(1, ⟨1, (0, 0, 0), 0, 0⟩), (2, ⟨2, (0, 0, 8), 0, 1⟩), (3, ⟨3, (0, 0, 7), 0, 2⟩),
        (4, ⟨4, (8, 0, 0), 1, 0⟩), (5, ⟨5, (8, 0, 8), 1, 1⟩), (6, ⟨6, (8, 0, 7), 1, 2⟩),
        (7, ⟨7, (16, 0, 8), 2, 1⟩), (8, ⟨8, (16, 0, 7), 2, 2⟩),
        (9, ⟨9, (15, 0, 7), 3, 2⟩)],
      [⟨6, 5, 7, 1, 1⟩, ⟨7, 6, 8, 2, 1⟩, ⟨9, 8, 9, 2, 1⟩],
      [⟨3, 4, 5, 1, 1⟩, ⟨4, 5, 6, 1, 1⟩, ⟨5, 7, 8, 2, 1⟩],
      [⟨1, 1, 2, 0, 1⟩, ⟨2, 2, 3, 0, 1⟩, ⟨8, 4, 7, 0, 1⟩, ⟨10, 7, 9, 0, 1⟩],
      [(1, 0), (2, 0), (3, 0), (4, 0), (7, 0), (9, 0)]⟩,
    [9], [1, 2, 3], [4, 5, 6], some ([(0, 0, 7)], [2])⟩

/-- The finished mesh of the asymmetry scenario: 12 nodes (rows out of
order along z because of the oversized edge width), 9 longitudinal, 5
transverse and 4 edge-span elements. -/
def c6_mesh_state : MeshState Nat :=
  ⟨13, 19, ⟨[(0, 1)], 1⟩, 5, 1,
    [(1, ⟨1, (0, 0, 0), 0, 0⟩), (2, ⟨2, (0, 0, 8), 0, 1⟩), (3, ⟨3, (0, 0, 7), 0, 2⟩),
      (4, ⟨4, (8, 0, 0), 1, 0⟩), (5, ⟨5, (8, 0, 8), 1, 1⟩), (6, ⟨6, (8, 0, 7), 1, 2⟩),
      (7, ⟨7, (16, 0, 8), 2, 1⟩), (8, ⟨8, (16, 0, 7), 2, 2⟩),
      (9, ⟨9, (15, 0, 7), 3, 2⟩), (10, ⟨10, (4, 0, 0), 4, 0⟩),
      (11, ⟨11, (4, 0, 8), 4, 1⟩), (12, ⟨12, (4, 0, 7), 4, 2⟩)],
    [⟨6, 5, 7, 1, 1⟩, ⟨7, 6, 8, 2, 1⟩, ⟨9, 8, 9, 2, 1⟩, ⟨13, 1, 10, 0, 1⟩,
      ⟨14, 2, 11, 1, 1⟩, ⟨15, 3, 12, 2, 1⟩, ⟨16, 10, 4, 0, 1⟩, ⟨17, 11, 5, 1, 1⟩,
      ⟨18, 12, 6, 2, 1⟩],
    [⟨3, 4, 5, 1, 1⟩, ⟨4, 5, 6, 1, 1⟩, ⟨5, 7, 8, 2, 1⟩, ⟨11, 10, 11, 4, 1⟩,
      ⟨12, 11, 12, 4, 1⟩],
    [⟨1, 1, 2, 0, 1⟩, ⟨2, 2, 3, 0, 1⟩, ⟨8, 4, 7, 0, 1⟩, ⟨10, 7, 9, 0, 1⟩],
    [(1, 0), (2, 0), (3, 0), (4, 0), (7, 0), (9, 0)]⟩

set_option maxRecDepth 2000 in
theorem c6_start_phase :
    ortho_start_edge (fun _ _ => (0 : Nat)) flat_path_geo c6_params
      ⟨initMeshState, [], [], [], none⟩ = some c6_start_state := by
  with_unfolding_all decide

set_option maxRecDepth 2000 in
theorem c6_end_step0 :
    ortho_end_search_step (fun _ _ => (0 : Nat)) flat_path_geo c6_params c6_start_state
      (0, ((8 : ℚ), (0 : ℚ), (0 : ℚ))) = some c6_mid1 := by
  with_unfolding_all decide

set_option maxRecDepth 2000 in
theorem c6_end_step1 :
    ortho_end_search_step (fun _ _ => (0 : Nat)) flat_path_geo c6_params c6_mid1
      (1, ((16 : ℚ), (0 : ℚ), (8 : ℚ))) = some c6_mid2 := by
  with_unfolding_all decide

set_option maxRecDepth 2000 in
theorem c6_end_step2 :
    ortho_end_search_step (fun _ _ => (0 : Nat)) flat_path_geo c6_params c6_mid2
      (2, ((15 : ℚ), (0 : ℚ), (7 : ℚ))) = some c6_mid3 := by
  with_unfolding_all decide

set_option maxRecDepth 2000 in
theorem c6_end_phase :
    ortho_end_edge (fun _ _ => (0 : Nat)) flat_path_geo c6_params c6_start_state
      = some c6_end_state := by
  have hcond : ¬ (|c6_params.skew_2 + c6_params.zeta| < 11) := by
    with_unfolding_all decide
  have henum : c6_params.end_node_list.enum
      = [(0, ((8 : ℚ), (0 : ℚ), (0 : ℚ))), (1, ((16 : ℚ), (0 : ℚ), (8 : ℚ))),
          (2, ((15 : ℚ), (0 : ℚ), (7 : ℚ)))] := by
    with_unfolding_all decide
  simp only [ortho_end_edge]
  rw [if_neg hcond]
  rw [henum]
  rw [List.foldlM_cons]
  rw [c6_end_step0]
  rw [option_some_bind]
  rw [List.foldlM_cons]
  rw [c6_end_step1]
  rw [option_some_bind]
  rw [List.foldlM_cons]
  rw [c6_end_step2]
  rw [option_some_bind]
  rw [List.foldlM_nil]
  with_unfolding_all decide

set_option maxRecDepth 2000 in
theorem c6_uniform_phase :
    ortho_uniform_region (fun _ _ => (0 : Nat)) flat_path_geo c6_params c6_end_state
      = some c6_mesh_state := by
  with_unfolding_all decide

set_option maxRecDepth 2000 in
theorem c6_construct :
    mesh_construct_ortho (fun _ _ => (0 : Nat)) flat_path_geo 8 7 8 0 (-45) 0 3 3 0 (-1)
      = some c6_mesh_state := by
  have hnoz : (mkEdgeConstructionLine (0, 0, 0) 7 8 0 3 0 0).noz = [0, 8, 7] := by
    with_unfolding_all decide
  have hsn : (mkEdgeConstructionLine (0, 0, 0) 7 8 0 3 0 0).node_list
      = [((0 : ℚ), (0 : ℚ), (0 : ℚ)), (0, 0, 8), (0, 0, 7)] := by
    with_unfolding_all decide
  have hen : (mkEdgeConstructionLine (8, 0, flat_path_geo.line 8) 7 8 (-45) 3 0
        (-1)).node_list
      = [((8 : ℚ), (0 : ℚ), (0 : ℚ)), (16, 0, 8), (15, 0, 7)] := by
    with_unfolding_all decide
  simp only [mesh_construct_ortho]
  rw [hnoz, hsn, hen]
  show orthogonal_meshing (fun _ _ => (0 : Nat)) flat_path_geo c6_params initMeshState
    = some c6_mesh_state
  simp only [orthogonal_meshing]
  rw [c6_start_phase, option_some_bind, c6_end_phase, option_some_bind]
  exact c6_uniform_phase

/-- `grid_number_dict` of the scenario: grids 1 and 4 are degenerate
(no third bounding node). -/
def c6_cells : List GridCell :=
  [[some 4, some 10, some 11, some 5], [some 5, some 7, none, some 4],
    [some 5, some 7, some 8, some 6], [some 5, some 11, some 12, some 6],
    [some 8, some 9, none, some 7], [some 10, some 1, some 2, some 11],
    [some 11, some 2, some 3, some 12]]

/-- `grid_vicinity_dict` of the scenario: grid 3 records `right = 2`, but
grid 2 records `left = 4`. -/
def c6_vicinity : List GridVicinity :=
  [⟨none, some 3, some 5, some 1⟩, ⟨none, some 2, some 0, none⟩,
    ⟨none, some 1, some 4, none⟩, ⟨none, some 0, some 6, some 2⟩,
    ⟨none, none, some 2, none⟩, ⟨none, some 6, none, some 0⟩,
    ⟨none, some 5, none, some 3⟩]

set_option maxRecDepth 2000 in
theorem c6_cells_eq : grid_number_cells c6_mesh_state = some c6_cells := by
  with_unfolding_all decide

set_option maxRecDepth 2000 in
theorem c6_vicinity_eq : grid_vicinity c6_mesh_state c6_cells = some c6_vicinity := by
  with_unfolding_all decide

theorem c6_identify : identify_grid_vicinity c6_mesh_state = some c6_vicinity := by
  simp only [identify_grid_vicinity]
  rw [c6_cells_eq, option_some_bind]
  exact c6_vicinity_eq

/-- C6: the left/right grid adjacency of `grid_vicinity_dict` is NOT
symmetric for every mesh the meshing algorithms produce.  For the
orthogonal mesh built from `long_dim = 8`, `width = 7`, `edge_width = 8`,
`num_trans_beam = num_long_beam = 3`, `skew_1 = 0`, `skew_2 = -45` over the
straight flat sweep path (every rotation and search value exact — see
`flat_path_geo`), grid 3 records grid 2 as its `right` neighbour while grid
2 records grid 4, not 3, as its `left` neighbour, so the symmetry check
fails: a degenerate grid (missing third bounding node) and a full grid both
classify as `left` of grid 2 and the later dict write wins. -/
theorem grid_vicinity_right_left_asymmetric :
    ((mesh_construct_ortho (fun _ _ => (0 : Nat)) flat_path_geo 8 7 8 0 (-45) 0 3 3 0
        (-1) >>= identify_grid_vicinity).map
      (fun vs => ((vs.getD 3 emptyVicinity).right, (vs.getD 2 emptyVicinity).left,
        vicinity_lr_symmetric vs)))
    = some (some 2, some 4, false) := by
  rw [c6_construct, option_some_bind, c6_identify]
  with_unfolding_all decide

end Grillage
